import Mathlib

/-!
Shallow embedding of the `babrahams:transactions2` Meteor package
(`lib/transactions-common.js` and the server-side self-repair startup
handler), together with theorems checking its natural-language
specification.

JavaScript data is modelled by the `Value` type below; JS objects that the
code only ever builds and reads field-by-field (transaction records, action
items, builder state) are modelled as Lean structures whose fields mirror
the fields the source reads and writes.
-/

namespace MeteorTx

/-- JSON-like JavaScript values: the data stored in documents and update
maps.  Objects are ordered association lists (JS objects preserve insertion
order for string keys). -/
inductive Value where
  | vNull
  | vBool (b : Bool)
  | vNum (n : Int)
  | vStr (s : String)
  | vArr (elems : List Value)
  | vObj (fields : List (String × Value))

mutual

/-- Decidable equality for `Value` (the automatic derivation does not
support nested inductives). -/
def Value.decEq : (a b : Value) → Decidable (a = b)
  | .vNull, .vNull => .isTrue rfl
  | .vBool a, .vBool b =>
    if h : a = b then .isTrue (by rw [h]) else .isFalse (fun hh => by cases hh; exact h rfl)
  | .vNum a, .vNum b =>
    if h : a = b then .isTrue (by rw [h]) else .isFalse (fun hh => by cases hh; exact h rfl)
  | .vStr a, .vStr b =>
    if h : a = b then .isTrue (by rw [h]) else .isFalse (fun hh => by cases hh; exact h rfl)
  | .vArr a, .vArr b =>
    match Value.decEqList a b with
    | .isTrue h => .isTrue (by rw [h])
    | .isFalse h => .isFalse (fun hh => by cases hh; exact h rfl)
  | .vObj a, .vObj b =>
    match Value.decEqFields a b with
    | .isTrue h => .isTrue (by rw [h])
    | .isFalse h => .isFalse (fun hh => by cases hh; exact h rfl)
  | .vNull, .vBool _ => .isFalse (fun h => nomatch h)
  | .vNull, .vNum _ => .isFalse (fun h => nomatch h)
  | .vNull, .vStr _ => .isFalse (fun h => nomatch h)
  | .vNull, .vArr _ => .isFalse (fun h => nomatch h)
  | .vNull, .vObj _ => .isFalse (fun h => nomatch h)
  | .vBool _, .vNull => .isFalse (fun h => nomatch h)
  | .vBool _, .vNum _ => .isFalse (fun h => nomatch h)
  | .vBool _, .vStr _ => .isFalse (fun h => nomatch h)
  | .vBool _, .vArr _ => .isFalse (fun h => nomatch h)
  | .vBool _, .vObj _ => .isFalse (fun h => nomatch h)
  | .vNum _, .vNull => .isFalse (fun h => nomatch h)
  | .vNum _, .vBool _ => .isFalse (fun h => nomatch h)
  | .vNum _, .vStr _ => .isFalse (fun h => nomatch h)
  | .vNum _, .vArr _ => .isFalse (fun h => nomatch h)
  | .vNum _, .vObj _ => .isFalse (fun h => nomatch h)
  | .vStr _, .vNull => .isFalse (fun h => nomatch h)
  | .vStr _, .vBool _ => .isFalse (fun h => nomatch h)
  | .vStr _, .vNum _ => .isFalse (fun h => nomatch h)
  | .vStr _, .vArr _ => .isFalse (fun h => nomatch h)
  | .vStr _, .vObj _ => .isFalse (fun h => nomatch h)
  | .vArr _, .vNull => .isFalse (fun h => nomatch h)
  | .vArr _, .vBool _ => .isFalse (fun h => nomatch h)
  | .vArr _, .vNum _ => .isFalse (fun h => nomatch h)
  | .vArr _, .vStr _ => .isFalse (fun h => nomatch h)
  | .vArr _, .vObj _ => .isFalse (fun h => nomatch h)
  | .vObj _, .vNull => .isFalse (fun h => nomatch h)
  | .vObj _, .vBool _ => .isFalse (fun h => nomatch h)
  | .vObj _, .vNum _ => .isFalse (fun h => nomatch h)
  | .vObj _, .vStr _ => .isFalse (fun h => nomatch h)
  | .vObj _, .vArr _ => .isFalse (fun h => nomatch h)

/-- Decidable equality for lists of values. -/
def Value.decEqList : (a b : List Value) → Decidable (a = b)
  | [], [] => .isTrue rfl
  | [], _ :: _ => .isFalse (fun h => nomatch h)
  | _ :: _, [] => .isFalse (fun h => nomatch h)
  | x :: xs, y :: ys =>
    match Value.decEq x y with
    | .isTrue h1 =>
      match Value.decEqList xs ys with
      | .isTrue h2 => .isTrue (by rw [h1, h2])
      | .isFalse h2 => .isFalse (fun hh => by cases hh; exact h2 rfl)
    | .isFalse h1 => .isFalse (fun hh => by cases hh; exact h1 rfl)

/-- Decidable equality for field lists of objects. -/
def Value.decEqFields : (a b : List (String × Value)) → Decidable (a = b)
  | [], [] => .isTrue rfl
  | [], _ :: _ => .isFalse (fun h => nomatch h)
  | _ :: _, [] => .isFalse (fun h => nomatch h)
  | (k, v) :: xs, (k', v') :: ys =>
    if hk : k = k' then
      match Value.decEq v v' with
      | .isTrue h1 =>
        match Value.decEqFields xs ys with
        | .isTrue h2 => .isTrue (by rw [hk, h1, h2])
        | .isFalse h2 => .isFalse (fun hh => by cases hh; exact h2 rfl)
      | .isFalse h1 => .isFalse (fun hh => by cases hh; exact h1 rfl)
    else .isFalse (fun hh => by cases hh; exact hk rfl)

end

instance : DecidableEq Value := Value.decEq

/-- Decidable equality for `Except` results (fallible operations of the
model), which the core library does not provide. -/
instance instDecEqExcept {ε α : Type} [DecidableEq ε] [DecidableEq α] :
    DecidableEq (Except ε α)
  | .ok a, .ok b =>
    if h : a = b then .isTrue (by rw [h]) else .isFalse (fun hh => by cases hh; exact h rfl)
  | .error a, .error b =>
    if h : a = b then .isTrue (by rw [h]) else .isFalse (fun hh => by cases hh; exact h rfl)
  | .ok _, .error _ => .isFalse (fun h => nomatch h)
  | .error _, .ok _ => .isFalse (fun h => nomatch h)

/-- JavaScript truthiness of a value. -/
def truthy : Value → Bool
  | .vNull => false
  | .vBool b => b
  | .vNum n => n != 0
  | .vStr s => s != ""
  | .vArr _ => true
  | .vObj _ => true

/-- Underscore's `_.isObject` (`obj === Object(obj)`): true for objects and
arrays, false for all primitives including `null`. -/
def isObjectJS : Value → Bool
  | .vArr _ => true
  | .vObj _ => true
  | _ => false

/-- JS property read `v.k`.  Reading a property of `null` (or `undefined`)
throws a `TypeError`, modelled as `Except.error`; reading an absent
property yields `undefined`, modelled as `none`.  (Built-in properties of
strings/arrays are not modelled; the source only reads the `json` key of
stored key/value pairs this way.) -/
def getProp : Value → String → Except Unit (Option Value)
  | .vNull, _ => .error ()
  | .vObj fs, k => .ok (fs.lookup k)
  | _, _ => .ok none

/-- JS object assignment `obj[k] = v`: overwrite in place if the key exists,
otherwise append (JS objects keep first-insertion position for a key). -/
def objAssign (obj : List (String × Value)) (k : String) (v : Value) : List (String × Value) :=
  if obj.any (fun kv => kv.1 = k) then obj.map (fun kv => if kv.1 = k then (k, v) else kv)
  else obj ++ [(k, v)]

/-- `Meteor._get(obj, p₁, …, pₙ)`: walk the path pieces; a missing property
yields `undefined` (`none`), and applying the `in` operator to a primitive
(including `null`) throws, modelled as `Except.error`.  Numeric path pieces
index into arrays. -/
def megGet : Value → List String → Except Unit (Option Value)
  | v, [] => .ok (some v)
  | v, p :: rest =>
    match v with
    | .vObj fs =>
      match fs.lookup p with
      | some v' => megGet v' rest
      | none => .ok none
    | .vArr l =>
      match p.toNat? with
      | some i =>
        if h : i < l.length then megGet (l.get ⟨i, h⟩) rest else .ok none
      | none => .ok none
    | _ => .error ()

/-- `key.split('.')`: split a key into its dot-delimited pieces (always at
least one piece). -/
def splitDotAux : List Char → String → List String
  | [], cur => [cur]
  | ch :: rest, cur =>
    if ch = '.' then cur :: splitDotAux rest ""
    else splitDotAux rest (cur.push ch)

def splitDot (key : String) : List String :=
  splitDotAux key.toList ""

/-- `Transact.prototype._drillDown(obj, key)`: `Meteor._get` applied to the
dot-split key.  `existingDoc` may be `undefined` (the document was not
found), in which case the first `in` test throws. -/
def _drillDown (obj : Option Value) (key : String) : Except Unit (Option Value) :=
  match obj with
  | none => .error ()
  | some v => megGet v (splitDot key)

/-- The raw `{command, data}` shape handed to the inverse calculator and to
`_packageForStorage` (`data` is a JS object: an update map). -/
structure UpdateArg where
  command : String
  data : List (String × Value)
deriving DecidableEq

/-- One element of the flat key/value-pair storage form. -/
structure KVPair where
  key : String
  value : Value
deriving DecidableEq

/-- The `{command, data}` form stored on a transaction item
(`update`/`inverse` fields), with `data` a list of `{key, value}` pairs. -/
structure PackagedOp where
  command : String
  data : List KVPair
deriving DecidableEq

/-- Loop body of `Transact.prototype._inverseUsingSet`: iterate over the
update map's keys; a key whose former value exists makes the running command
`$set` and records the former value, a missing key makes the running
command `$unset` and records `''`.  The single `inverseCommand` variable is
overwritten at each key. -/
def inverseUsingSetGo (existingDoc : Option Value) :
    List (String × Value) → String → List (String × Value) →
    Except Unit (String × List (String × Value))
  | [], cmd, acc => .ok (cmd, acc)
  | (k, _) :: rest, _cmd, acc =>
    match _drillDown existingDoc k with
    | .error e => .error e
    | .ok (some formerVal) => inverseUsingSetGo existingDoc rest "$set" (acc ++ [(k, formerVal)])
    | .ok none => inverseUsingSetGo existingDoc rest "$unset" (acc ++ [(k, .vStr "")])

/-- `Transact.prototype._inverseUsingSet(collection, existingDoc, updateMap,
opt)`: the default inverse, restoring each key's former value with `$set`
(or re-`$unset`ting a key that did not exist).  `inverseCommand` starts as
`'$set'`.  The `collection`/`opt` parameters are unused by the source body
and omitted. -/
def _inverseUsingSet (existingDoc : Option Value) (updateMap : List (String × Value)) :
    Except Unit UpdateArg :=
  match inverseUsingSetGo existingDoc updateMap "$set" [] with
  | .error e => .error e
  | .ok (cmd, data) => .ok { command := cmd, data := data }

/-- The per-command entries of `this.inverseOperations` (`$set`, `$addToSet`,
`$unset`, `$pull`, `$inc`, `$push`); `none` for a command with no entry. -/
def inverseOperationsApply (command : String) (existingDoc : Option Value)
    (updateMap : List (String × Value)) : Option (Except Unit UpdateArg) :=
  if command = "$set" then some (_inverseUsingSet existingDoc updateMap)
  else if command = "$addToSet" then some (.ok { command := "$pull", data := updateMap })
  else if command = "$unset" then some (_inverseUsingSet existingDoc updateMap)
  else if command = "$pull" then some (.ok { command := "$addToSet", data := updateMap })
  else if command = "$inc" then some (_inverseUsingSet existingDoc updateMap)
  else if command = "$push" then some (.ok { command := "$pull", data := updateMap })
  else none

/-- The inverse computation in `Transact.prototype.update` when the caller
supplies no explicit inverse:
`_.isFunction(this.inverseOperations[command]) &&
 this.inverseOperations[command].call(...) || this._inverseUsingSet(...)`.
A command with no `inverseOperations` entry makes the left side `false`, so
the `||` falls back to `_inverseUsingSet`.  (Each entry returns an object,
which is always truthy, so the fallback is not taken for known commands.) -/
def computeDefaultInverse (command : String) (existingDoc : Option Value)
    (updateMap : List (String × Value)) : Except Unit UpdateArg :=
  match inverseOperationsApply command existingDoc updateMap with
  | some r => r
  | none => _inverseUsingSet existingDoc updateMap

/-- `Transact.prototype._packageForStorage(update)`: store the update map as
an ordered `{key, value}` list; a non-scalar value is replaced by
`{json: JSON.stringify(value)}`.  The external `JSON.stringify` collaborator
is a parameter `stringify`. -/
def _packageForStorage (stringify : Value → String) (update : UpdateArg) : PackagedOp :=
  { command := update.command,
    data := update.data.map (fun kv =>
      { key := kv.1,
        value := if isObjectJS kv.2 then .vObj [("json", .vStr (stringify kv.2))] else kv.2 }) }

/-- Loop body of `Transact.prototype._unpackageForUpdate`: for each stored
pair, if `val.value.json` is truthy the value is `JSON.parse`d, otherwise
`val.value` is used directly; reading `.json` from a `null` value throws.
The external `JSON.parse` collaborator is a parameter `parse` (it receives
the `json` property's value). -/
def unpackageGo (parse : Value → Except Unit Value) :
    List KVPair → List (String × Value) → Except Unit (List (String × Value))
  | [], acc => .ok acc
  | kv :: rest, acc =>
    match getProp kv.value "json" with
    | .error e => .error e
    | .ok (some jv) =>
      if truthy jv then
        match parse jv with
        | .error e => .error e
        | .ok v => unpackageGo parse rest (objAssign acc kv.key v)
      else unpackageGo parse rest (objAssign acc kv.key kv.value)
    | .ok none => unpackageGo parse rest (objAssign acc kv.key kv.value)

/-- `Transact.prototype._unpackageForUpdate(data)`: rebuild the update map
object from the stored `{key, value}` pairs. -/
def _unpackageForUpdate (parse : Value → Except Unit Value) (data : List KVPair) :
    Except Unit (List (String × Value)) :=
  unpackageGo parse data []

/-- Stand-in for the external `JSON.stringify` collaborator (an opaque
capability of the platform, not code of this package); theorems constrain
serialization only through explicit round-trip hypotheses, and the concrete
inputs of witnesses and counterexamples never reach it. -/
def jsonStringifyModel : Value → String := fun _ => "json"

/-- Stand-in for the external `JSON.parse` collaborator; see
`jsonStringifyModel`. -/
def jsonParseModel : Value → Except Unit Value := fun v => .ok v

/-! ### The store model

Application documents and collections, the `transactions` collection, and
the handful of Mongo operations the package issues against them. -/

/-- An application document: an ordered field map (`_id` and
`transaction_id` live among the fields, as in Mongo). -/
abbrev Doc := List (String × Value)

/-- `tx.collectionIndex`: collection name to document list.  The modelled
flows assume every collection named by a transaction item is registered
(the source would throw on an unregistered name). -/
abbrev Collections := List (String × List Doc)

def findDocs (colls : Collections) (c : String) : List Doc :=
  (colls.lookup c).getD []

def setColl (colls : Collections) (c : String) (docs : List Doc) : Collections :=
  if colls.any (fun e => e.1 = c) then colls.map (fun e => if e.1 = c then (c, docs) else e)
  else colls ++ [(c, docs)]

/-- One `action` item of a persisted transaction (§`_createItem` plus the
kind-specific payload fields `newDoc`/`doc`/`hardDelete`/`update`/`inverse`). -/
structure Item where
  collection : String
  _id : String
  action : String
  state : String
  instant : Bool
  noCheck : Bool
  newDoc : Option Doc := none
  doc : Option Doc := none
  hardDelete : Bool := false
  update : Option PackagedOp := none
  inverse : Option PackagedOp := none
deriving DecidableEq

/-- A persisted record of the `transactions` collection.  `undone` is a
nullable, possibly-absent timestamp: `none` = field absent, `some none` =
`null`, `some (some t)` = a date.  `expired` is absent (`none`) or set. -/
structure TxRecord where
  _id : String
  user_id : Option String
  description : String
  context : List (String × Value)
  items : Option (List Item)
  state : String
  lastModified : Nat
  undone : Option (Option Nat) := none
  expired : Option Bool := none
deriving DecidableEq

/-- The whole store: the `transactions` collection plus the application
collections. -/
structure DB where
  txs : List TxRecord
  colls : Collections
deriving DecidableEq

/-- A Mongo modifier as issued by this package: a list of
`(command, update map)` pairs, e.g. `[("$set", …)]`. -/
abbrev Modifier := List (String × List (String × Value))

/-- An operation issued against an application collection.  `update`
selectors are always `{_id: …}`; `remove` selectors optionally add a
`transaction_id` constraint. -/
inductive AppOp where
  | insert (collection : String) (doc : Doc)
  | update (collection : String) (id : String) (mod : Modifier)
  | remove (collection : String) (id : String) (txIdSel : Option String)
deriving DecidableEq

/-- Does a document match an `{_id: id}` (plus optional
`{transaction_id: t}`) selector? -/
def matchesSel (d : Doc) (id : String) (txSel : Option String) : Bool :=
  d.lookup "_id" = some (.vStr id) &&
    (match txSel with
     | none => true
     | some t => d.lookup "transaction_id" = some (.vStr t))

/-- Apply one modifier command to a document's top-level fields.  Dotted
keys are treated as literal field names and `$pull`'s query matching is
plain value equality; no modelled claim inspects the fields such an update
produces, only which updates run and in which order. -/
def applyCmd (cmd : String) (data : List (String × Value)) (d : Doc) : Doc :=
  if cmd = "$set" then data.foldl (fun d kv => objAssign d kv.1 kv.2) d
  else if cmd = "$unset" then d.filter (fun kv => data.all (fun u => u.1 ≠ kv.1))
  else if cmd = "$inc" then
    data.foldl (fun d kv =>
      match d.lookup kv.1, kv.2 with
      | none, _ => objAssign d kv.1 kv.2
      | some (.vNum a), .vNum b => objAssign d kv.1 (.vNum (a + b))
      | some _, _ => d) d
  else if cmd = "$push" then
    data.foldl (fun d kv =>
      match d.lookup kv.1 with
      | none => objAssign d kv.1 (.vArr [kv.2])
      | some (.vArr l) => objAssign d kv.1 (.vArr (l ++ [kv.2]))
      | some _ => d) d
  else if cmd = "$addToSet" then
    data.foldl (fun d kv =>
      match d.lookup kv.1 with
      | none => objAssign d kv.1 (.vArr [kv.2])
      | some (.vArr l) => objAssign d kv.1 (.vArr (if l.contains kv.2 then l else l ++ [kv.2]))
      | some _ => d) d
  else if cmd = "$pull" then
    data.foldl (fun d kv =>
      match d.lookup kv.1 with
      | some (.vArr l) => objAssign d kv.1 (.vArr (l.filter (fun x => x ≠ kv.2)))
      | _ => d) d
  else d

def applyModToDoc (m : Modifier) (d : Doc) : Doc :=
  m.foldl (fun d cmd => applyCmd cmd.1 cmd.2 d) d

/-- `collection.insert(doc)`: throws on a duplicate `_id`. -/
def colInsert (colls : Collections) (c : String) (doc : Doc) : Except Unit Collections :=
  let docs := findDocs colls c
  match doc.lookup "_id" with
  | some idv =>
    if docs.any (fun d => d.lookup "_id" = some idv) then .error ()
    else .ok (setColl colls c (docs ++ [doc]))
  | none => .ok (setColl colls c (docs ++ [doc]))

/-- Execute one application-collection operation. -/
def applyAppOp (colls : Collections) : AppOp → Except Unit Collections
  | .insert c doc => colInsert colls c doc
  | .update c id m =>
    .ok (setColl colls c ((findDocs colls c).map
      (fun d => if matchesSel d id none then applyModToDoc m d else d)))
  | .remove c id txSel =>
    .ok (setColl colls c ((findDocs colls c).filter (fun d => !matchesSel d id txSel)))

/-- `Transactions.update({_id: id}, …)` modelled as a pointwise record
update. -/
def txUpdate (txs : List TxRecord) (id : String) (f : TxRecord → TxRecord) : List TxRecord :=
  txs.map (fun r => if r._id = id then f r else r)

/-- `Transact.prototype._changeItemState`: `$set` of `items.<index>.state`.
An index beyond the array is left alone (the modelled flows never produce
one); a record whose `items` field is absent is likewise untouched. -/
def changeItemState (txs : List TxRecord) (txid : Option String) (index : Nat)
    (state : String) : List TxRecord :=
  match txid with
  | none => txs
  | some t =>
    txUpdate txs t (fun r =>
      { r with items := r.items.map (fun l =>
          l.mapIdx (fun i it => if i = index then { it with state := state } else it)) })

/-! ### The Undo/Redo Engine

`_meteorTransactionsUndo` and `_meteorTransactionsRedo`, modelled on the
server (`Meteor.isClient` false) with a logged-in user and the default
always-granting `checkPermission`. -/

def checkFieldsGo (parse : Value → Except Unit Value) : List Item → Except Unit Bool
  | [] => .ok true
  | it :: rest =>
    if it.action = "update" then
      match it.update, it.inverse with
      | some u, some inv =>
        match _unpackageForUpdate parse u.data with
        | .error e => .error e
        | .ok _ =>
          match _unpackageForUpdate parse inv.data with
          | .error e => .error e
          | .ok _ => checkFieldsGo parse rest
      | _, _ => .error ()
    else checkFieldsGo parse rest

/-- `Transact.prototype._checkTransactionFields(items, txid)` on the server
with the default `checkPermission` (which always grants): an empty item
list fails; otherwise each update item's stored forward and inverse data
are recombined via `_unpackageForUpdate` (an update item missing its
`update`/`inverse` field throws, and unpackaging exceptions propagate
uncaught), and the always-true permission predicate leaves `fail` false.
The read-only document fetches feed only that predicate and are elided. -/
def _checkTransactionFields (parse : Value → Except Unit Value) (items : List Item) :
    Except Unit Bool :=
  if items.isEmpty then .ok false
  else checkFieldsGo parse items

/-- The `expired` flag and `queuedItems` list built by the undo/redo scan. -/
structure ScanState where
  expired : Bool
  queued : List AppOp
deriving DecidableEq

/-- Eligibility selector of `_meteorTransactionsUndo`:
`{$or: [{undone: null}, {undone: {$exists: false}}], expired:
{$exists: false}, state: "done"}` extended with `{_id: txid}` or
`{user_id: Meteor.userId()}`. -/
def undoEligible (uid : Option String) (txid : Option String) (r : TxRecord) : Bool :=
  (match txid with
   | some t => r._id == t
   | none => r.user_id == uid) &&
  (r.undone == none || r.undone == some none) &&
  r.expired == none && r.state == "done"

/-- First record with the maximal sort key (Mongo `sort: desc, limit: 1`). -/
def pickLatest (f : TxRecord → Nat) (l : List TxRecord) : Option TxRecord :=
  l.foldl (fun best r =>
    match best with
    | none => some r
    | some b => if f r > f b then some r else best) none

/-- `Transactions.find(selector, sorter).fetch()[0]` for undo: with an
explicit `txid` there is no sorter and the first match is taken; otherwise
the matches are sorted by `lastModified` descending and limited to one. -/
def selectUndoTx (uid : Option String) (txid : Option String) (txs : List TxRecord) :
    Option TxRecord :=
  let ms := txs.filter (undoEligible uid txid)
  match txid with
  | some _ => ms.head?
  | none => pickLatest (fun r => r.lastModified) ms

/-- One step of the undo scan over `lastTransaction.items.reverse()`:
stale-ness checks against the (unchanged, scan-time) collections, queueing
of the reversing operation, and in-scan `_unpackageForUpdate` of stored
inverses (whose exceptions propagate). -/
def undoScanStep (parse : Value → Except Unit Value) (colls : Collections) (txRecId : String)
    (st : ScanState) (obj : Item) : Except Unit ScanState :=
  if obj.action = "remove" then
    if !st.expired then
      match obj.doc with
      | some d =>
        -- duplicate check: `collection.find(obj.doc._id).count()`
        let dup := match d.lookup "_id" with
          | some idv => (findDocs colls obj.collection).any (fun d' => d'.lookup "_id" == some idv)
          | none => !(findDocs colls obj.collection).isEmpty
        if dup then .ok { st with expired := true }
        else .ok { st with queued := st.queued ++ [.insert obj.collection d] }
      | none =>
        .ok { st with queued := st.queued ++
          [.update obj.collection obj._id
            [("$unset", [("deleted", .vNum 1), ("transaction_id", .vStr txRecId)])]] }
    else .ok st
  else if obj.action = "update" then
    if !st.expired then
      match obj.inverse with
      | some inv =>
        if inv.command ≠ "" then
          match _unpackageForUpdate parse inv.data with
          | .error e => .error e
          | .ok data =>
            .ok { st with queued := st.queued ++ [.update obj.collection obj._id [(inv.command, data)]] }
        else .ok st
      | none => .ok st
    else .ok st
  else if obj.action = "insert" then
    if !st.expired then
      let st1 := { st with queued := st.queued ++ [.remove obj.collection obj._id (some txRecId)] }
      -- staleness check: `findOne({_id, $and: [{transaction_id: {$exists: true}},
      -- {transaction_id: {$ne: lastTransaction._id}}]})`
      if (findDocs colls obj.collection).any (fun d' =>
          d'.lookup "_id" == some (.vStr obj._id) &&
          (match d'.lookup "transaction_id" with
           | some tv => tv ≠ .vStr txRecId
           | none => false)) then
        .ok { st1 with expired := true }
      else .ok st1
    else .ok st
  else .ok st

/-- Collections, transaction records, and the ordered list of attempted
application-collection operations during queue processing. -/
structure ExecState where
  colls : Collections
  txs : List TxRecord
  trace : List AppOp
deriving DecidableEq

/-- Queue processing: each queued operation is attempted in order inside a
`try`; a failure is swallowed and merely skips that item's
`_changeItemState` marking. -/
def execQueueGo (txid : String) (stateName : String) (idxMap : Nat → Nat) :
    ExecState → List AppOp → Nat → ExecState
  | es, [], _ => es
  | es, op :: rest, i =>
    let es' :=
      match applyAppOp es.colls op with
      | .ok colls' =>
        { colls := colls',
          txs := changeItemState es.txs (some txid) (idxMap i) stateName,
          trace := es.trace ++ [op] }
      | .error _ => { es with trace := es.trace ++ [op] }
    execQueueGo txid stateName idxMap es' rest (i + 1)

/-- Result of an undo/redo method call: the store afterwards, the attempted
application-collection operations in order, and the returned `expired`
flag. -/
structure MethodResult where
  db : DB
  trace : List AppOp
  expired : Bool
deriving DecidableEq

/-- `_meteorTransactionsUndo(txid)` on the server for a logged-in user
`uid`.  A `uid` of `none` models the not-logged-in early return. -/
def undoMethod (parse : Value → Except Unit Value) (uid : Option String)
    (txid : Option String) (now : Nat) (db : DB) : Except Unit MethodResult :=
  if uid.isNone then .ok ⟨db, [], false⟩
  else
    match selectUndoTx uid txid db.txs with
    | none => .ok ⟨db, [], false⟩
    | some r =>
      match r.items with
      | none =>
        -- auto clean: this transaction is empty
        .ok ⟨⟨db.txs.filter (fun q => q._id != r._id), db.colls⟩, [], false⟩
      | some items0 =>
        match _checkTransactionFields parse items0 with
        | .error e => .error e
        | .ok fieldsOk =>
          if fieldsOk then
            match items0.reverse.foldlM (undoScanStep parse db.colls r._id) ⟨false, []⟩ with
            | .error e => .error e
            | .ok st =>
              if st.expired then
                .ok ⟨⟨txUpdate db.txs r._id (fun q => { q with expired := some true }),
                      db.colls⟩, [], true⟩
              else
                let es := execQueueGo r._id "undone" (fun i => st.queued.length - 1 - i)
                  ⟨db.colls, db.txs, []⟩ st.queued 0
                let txs2 := txUpdate es.txs r._id
                  (fun q => { q with undone := some (some now), state := "undone" })
                .ok ⟨⟨txs2, es.colls⟩, es.trace, false⟩
          else
            .ok ⟨⟨txUpdate db.txs r._id (fun q => { q with expired := some true }),
                  db.colls⟩, [], true⟩

/-- Eligibility selector of `_meteorTransactionsRedo`:
`{undone: {$exists: true, $ne: null}, expired: {$exists: false}}` extended
with `{_id: txid}` or `{user_id: …}` (note: no `state` condition). -/
def redoEligible (uid : Option String) (txid : Option String) (r : TxRecord) : Bool :=
  (match txid with
   | some t => r._id == t
   | none => r.user_id == uid) &&
  (match r.undone with
   | some (some _) => true
   | _ => false) &&
  r.expired == none

/-- Record selection for redo: sort key is the `undone` timestamp. -/
def selectRedoTx (uid : Option String) (txid : Option String) (txs : List TxRecord) :
    Option TxRecord :=
  let ms := txs.filter (redoEligible uid txid)
  match txid with
  | some _ => ms.head?
  | none =>
    pickLatest (fun r =>
      match r.undone with
      | some (some t) => t
      | _ => 0) ms

/-- One step of the redo scan over `lastUndo.items` in stored order.  Only
the insert branch tests/updates `expired`; removes and updates are queued
unconditionally (the queue still only runs when nothing expired). -/
def redoScanStep (parse : Value → Except Unit Value) (colls : Collections) (txRecId : String)
    (now : Nat) (st : ScanState) (obj : Item) : Except Unit ScanState :=
  if obj.action = "remove" then
    match obj.doc with
    | some _ => .ok { st with queued := st.queued ++ [.remove obj.collection obj._id none] }
    | none =>
      .ok { st with queued := st.queued ++
        [.update obj.collection obj._id
          [("$set", [("deleted", .vNum now), ("transaction_id", .vStr txRecId)])]] }
  else if obj.action = "update" then
    match obj.update with
    | some u =>
      if u.command ≠ "" then
        match _unpackageForUpdate parse u.data with
        | .error e => .error e
        | .ok data =>
          .ok { st with queued := st.queued ++ [.update obj.collection obj._id [(u.command, data)]] }
      else .ok st
    | none => .ok st
  else if obj.action = "insert" then
    if !st.expired then
      if (findDocs colls obj.collection).any (fun d' => d'.lookup "_id" == some (.vStr obj._id)) then
        .ok { st with expired := true }
      else
        let newDoc := objAssign (objAssign (obj.newDoc.getD []) "transaction_id" (.vStr txRecId))
          "_id" (.vStr obj._id)
        .ok { st with queued := st.queued ++ [.insert obj.collection newDoc] }
    else .ok st
  else .ok st

/-- `_meteorTransactionsRedo(txid)` on the server for a logged-in user. -/
def redoMethod (parse : Value → Except Unit Value) (uid : Option String)
    (txid : Option String) (now : Nat) (db : DB) : Except Unit MethodResult :=
  if uid.isNone then .ok ⟨db, [], false⟩
  else
    match selectRedoTx uid txid db.txs with
    | none => .ok ⟨db, [], false⟩
    | some r =>
      match r.items with
      | none => .ok ⟨db, [], false⟩
      | some items0 =>
        match _checkTransactionFields parse items0 with
        | .error e => .error e
        | .ok fieldsOk =>
          if fieldsOk then
            match items0.foldlM (redoScanStep parse db.colls r._id now) ⟨false, []⟩ with
            | .error e => .error e
            | .ok st =>
              if st.expired then
                .ok ⟨⟨txUpdate db.txs r._id (fun q => { q with expired := some true }),
                      db.colls⟩, [], true⟩
              else
                let es := execQueueGo r._id "done" (fun i => i) ⟨db.colls, db.txs, []⟩ st.queued 0
                let txs2 := txUpdate es.txs r._id
                  (fun q => { q with undone := none, state := "done" })
                .ok ⟨⟨txs2, es.colls⟩, es.trace, false⟩
          else
            .ok ⟨⟨txUpdate db.txs r._id (fun q => { q with expired := some true }),
                  db.colls⟩, [], true⟩

/-! ### The Transaction Builder

The mutable fields of the `Transact` singleton that the modelled operations
read and write, and the `rollback`, `_recordTransaction`, `commit` and
`update` methods. -/

structure BuilderState where
  transaction_id : Option String
  autoTransaction : Bool
  items : List Item
  startAttempts : Int
  rollbackFlag : Bool
  rollbackReason : String
  context : List (String × Value)
  description : String
deriving DecidableEq

/-- `Transact.prototype._cleanReset`. -/
def cleanResetBuilder (s : BuilderState) : BuilderState :=
  { s with transaction_id := none, autoTransaction := false, items := [],
           startAttempts := 0, rollbackFlag := false, rollbackReason := "",
           context := [], description := "" }

/-- The store operation one item of `Transact.prototype.rollback`'s loop
attempts: an instant remove is reversed by reinserting the snapshot (hard
delete) or `$unset`ting the tombstone (soft delete), an instant update by
its stored inverse, an instant insert by a `{_id, transaction_id}`-guarded
remove; anything else does nothing.  An update item's stored inverse is
unpackaged *outside* the loop's `try`, so an unpackaging exception aborts
the whole rollback (`Except.error`). -/
def rollbackAttempt (parse : Value → Except Unit Value) (tid : Option String)
    (obj : Item) : Except Unit (Option AppOp) :=
  if obj.action = "remove" && obj.instant then
    match obj.doc with
    | some d => .ok (some (.insert obj.collection d))
    | none =>
      .ok (some (.update obj.collection obj._id
        [("$unset", [("deleted", .vNum 1),
                     ("transaction_id", match tid with
                      | some t => .vStr t
                      | none => .vNull)])]))
  else if obj.action = "update" && obj.instant then
    match obj.inverse with
    | some inv =>
      if inv.command ≠ "" then
        match _unpackageForUpdate parse inv.data with
        | .error e => .error e
        | .ok data => .ok (some (.update obj.collection obj._id [(inv.command, data)]))
      else .ok none
    | none => .ok none
  else if obj.action = "insert" && obj.instant then
    .ok (some (.remove obj.collection obj._id (some (tid.getD ""))))
  else .ok none

/-- The loop of `Transact.prototype.rollback` over `this._items` (in stored
order, via `_.each`): each instant action's stored reversal is attempted in
a `try`; a failure sets the sticky `error` flag, which suppresses the
`rolledBack` item-state markers from then on but does not stop the loop.
The accumulated `trace` lists the attempted store operations in order. -/
def rollbackGo (parse : Value → Except Unit Value) (tid : Option String) :
    DB → Bool → List AppOp → Nat → List Item → Except Unit (DB × Bool × List AppOp)
  | db, err, trace, _, [] => .ok (db, err, trace)
  | db, err, trace, index, obj :: rest =>
    match rollbackAttempt parse tid obj with
    | .error e => .error e
    | .ok opOpt =>
      let (db1, err1, trace1) :=
        match opOpt with
        | none => (db, err, trace)
        | some op =>
          match applyAppOp db.colls op with
          | .ok colls' => (⟨db.txs, colls'⟩, err, trace ++ [op])
          | .error _ => (db, true, trace ++ [op])
      let db2 : DB :=
        if err1 then db1
        else ⟨changeItemState db1.txs tid index "rolledBack", db1.colls⟩
      rollbackGo parse tid db2 err1 trace1 (index + 1) rest

/-- Result of `Transact.prototype.rollback`: the store afterwards, the
reset builder, the attempted store operations in order, and whether any
reversal failed. -/
structure RollbackOutcome where
  builder : BuilderState
  db : DB
  trace : List AppOp
  errorFlag : Bool
deriving DecidableEq

/-- `Transact.prototype.rollback`: reverse the instant actions of
`this._items`, then mark (or remove, per
`tx.removeRolledBackTransactions`) the transaction record, then
`_cleanReset`. -/
def rollback (parse : Value → Except Unit Value) (removeRolledBack : Bool)
    (s : BuilderState) (db : DB) : Except Unit RollbackOutcome := do
  let (db1, err, trace) ← rollbackGo parse s.transaction_id db false [] 0 s.items
  let txs2 :=
    match s.transaction_id with
    | none => db1.txs
    | some t =>
      if removeRolledBack then db1.txs.filter (fun q => q._id != t)
      else txUpdate db1.txs t (fun q => { q with state := "rolledBack" })
  .ok { builder := cleanResetBuilder s, db := ⟨txs2, db1.colls⟩, trace := trace,
        errorFlag := err }

/-- `Transact.prototype._recordTransaction(item)` (used by instant
actions): insert a `pending` transaction record — without an `items` field
— if none exists, then `$addToSet` the item onto `items`. -/
def _recordTransaction (uid : Option String) (s : BuilderState) (now : Nat)
    (txs : List TxRecord) (item : Item) : List TxRecord :=
  match s.transaction_id with
  | none => txs
  | some t =>
    let txs1 :=
      if txs.any (fun r => r._id == t) then txs
      else txs ++ [{ _id := t, user_id := uid, description := s.description,
                     context := s.context, items := none, state := "pending",
                     lastModified := now }]
    txUpdate txs1 t (fun r =>
      { r with items := some (match r.items with
          | some l => if l.contains item then l else l ++ [item]
          | none => [item]) })

/-- The first (`txid`) argument of `commit`, which JS lets range over
`undefined`, `null`, a string, a function (the callback in first position)
or an object (`_closeAutoTransaction` passes `opt`). -/
inductive TxidArg where
  | undef
  | nullArg
  | strArg (s : String)
  | fnArg
  | objArg
deriving DecidableEq

/-- The outcome of the `_meteorTransactionsProcess` invocation a
non-trivial commit makes; its store effects are the server method's and are
not folded into `commitModel` (the claims settled against `commitModel`
never reach that branch). -/
inductive ProcessOutcome where
  | succeeds
  | failsViaCallback
  | throwsSync
deriving DecidableEq

structure CommitOutcome where
  builder : BuilderState
  db : DB
  trace : List AppOp
  callbackErrors : List String
  callbackSuccess : Bool
  processCalled : Bool
  rollbackCalled : Bool
  result : Option Bool
deriving DecidableEq

/-- `Transact.prototype.commit(txid, callback, newId)` for user `uid`.
`hasCallback` says whether a function was passed in the second position;
`_callback` fires only if the first or second argument is a function.
`result = some true` models `return true`, `none` the bare `return`s. -/
def commitModel (parse : Value → Except Unit Value) (removeRolledBack : Bool)
    (uid : Option String) (txidArg : TxidArg) (hasCallback : Bool)
    (po : ProcessOutcome) (s : BuilderState) (db : DB) : Except Unit CommitOutcome :=
  let cbPresent := txidArg == TxidArg.fnArg || hasCallback
  let cb : List String → List String :=
    fun errs => if cbPresent then errs else []
  if uid.isNone then
    .ok { builder := s, db := db, trace := [], callbackErrors := [],
          callbackSuccess := false, processCalled := false, rollbackCalled := false,
          result := none }
  else
    match s.transaction_id with
    | none =>
      .ok { builder := cleanResetBuilder s, db := db, trace := [],
            callbackErrors := cb ["no-transactions-open"], callbackSuccess := false,
            processCalled := false, rollbackCalled := false, result := none }
    | some tid =>
      if (match txidArg with
          | TxidArg.strArg t => t ≠ tid
          | _ => false : Bool) then
        .ok { builder := { s with startAttempts := s.startAttempts - 1 }, db := db,
              trace := [], callbackErrors := cb ["multiple-transactions-open"],
              callbackSuccess := false, processCalled := false, rollbackCalled := false,
              result := none }
      else
        if s.startAttempts > 0 &&
            !(txidArg == TxidArg.strArg tid || txidArg == TxidArg.nullArg) then
          .ok { builder := { s with startAttempts := s.startAttempts - 1 }, db := db,
                trace := [], callbackErrors := cb ["multiple-transactions-open"],
                callbackSuccess := false, processCalled := false, rollbackCalled := false,
                result := none }
        else if s.items.isEmpty then
          -- "Empty transaction removed": nothing recorded, nothing called
          .ok { builder := s, db := db, trace := [], callbackErrors := [],
                callbackSuccess := false, processCalled := false,
                rollbackCalled := false, result := some true }
        else if s.rollbackFlag then
          match rollback parse removeRolledBack s db with
          | .error e => .error e
          | .ok r =>
            .ok { builder := r.builder, db := r.db, trace := r.trace,
                  callbackErrors := cb [s.rollbackReason], callbackSuccess := false,
                  processCalled := false, rollbackCalled := true, result := none }
        else
          match po with
          | .succeeds =>
            .ok { builder := cleanResetBuilder s, db := db, trace := [],
                  callbackErrors := [], callbackSuccess := cbPresent,
                  processCalled := true, rollbackCalled := false, result := some true }
          | .failsViaCallback =>
            -- the method callback only logs the error; no caller callback
            .ok { builder := s, db := db, trace := [], callbackErrors := [],
                  callbackSuccess := false, processCalled := true,
                  rollbackCalled := false, result := some true }
          | .throwsSync =>
            match rollback parse removeRolledBack s db with
            | .error e => .error e
            | .ok r =>
              .ok { builder := r.builder, db := r.db, trace := r.trace,
                    callbackErrors := cb ["error"], callbackSuccess := false,
                    processCalled := true, rollbackCalled := true, result := none }

/-- The `tx`-relevant options of an `update` call. -/
structure UpdateOpt where
  instant : Bool := false
  inverse : Option UpdateArg := none
  overridePermissionCheck : Bool := false
deriving DecidableEq

/-- `updates["$set"] = …transaction_id…` in `_doUpdate`: extend an existing
`$set` map or add one. -/
def modifierExtendSet (m : Modifier) (tid : String) : Modifier :=
  if m.any (fun e => e.1 = "$set") then
    m.map (fun e => if e.1 = "$set" then ("$set", objAssign e.2 "transaction_id" (.vStr tid)) else e)
  else m ++ [("$set", [("transaction_id", .vStr tid)])]

/-- The per-command loop of `Transact.prototype.update`: for each
`(command, updateMap)` pair of the modifier, compute the inverse (the
caller's explicit `opt.inverse` wins, otherwise the `inverseOperations`
dispatch with its `_inverseUsingSet` fallback; exceptions propagate out of
`update`), then `_doUpdate`: an instant call applies the full modifier —
`$set`-extended with the transaction id — on its last iteration and records
the transaction; every call pushes the packaged item onto `this._items`.
The store-update model cannot fail, so the `update-error` catch is
unreachable here. -/
def updateLoopGo (stringify : Value → String) (uid : Option String) (now : Nat)
    (c : String) (docIdArg : String) (existingVal : Option Value)
    (updates0 : Modifier) (optInstant : Bool) (optInverse : Option UpdateArg)
    (noCheckFlag : Bool) (count : Nat) :
    BuilderState → DB → List AppOp → Nat →
    List (String × List (String × Value)) → Except Unit (BuilderState × DB × List AppOp)
  | s, db, trace, _, [] => .ok (s, db, trace)
  | s, db, trace, i, (command, updateMap) :: rest => do
    let invArg ←
      match optInverse with
      | some inv => pure inv
      | none => computeDefaultInverse command existingVal updateMap
    let pkgU := _packageForStorage stringify ⟨command, updateMap⟩
    let pkgI := _packageForStorage stringify invArg
    let item : Item :=
      { collection := c, _id := docIdArg, action := "update",
        state := if optInstant then "done" else "pending", instant := optInstant,
        noCheck := noCheckFlag, update := some pkgU, inverse := some pkgI }
    if optInstant && (i == count - 1) then
      let tid := s.transaction_id.getD ""
      let updates' := modifierExtendSet updates0 tid
      let txs' := _recordTransaction uid s now db.txs item
      let op : AppOp := .update c docIdArg updates'
      let colls' :=
        match applyAppOp db.colls op with
        | .ok cs => cs
        | .error _ => db.colls
      updateLoopGo stringify uid now c docIdArg existingVal updates0 optInstant
        optInverse noCheckFlag count { s with items := s.items ++ [item] }
        ⟨txs', colls'⟩ (trace ++ [op]) (i + 1) rest
    else
      updateLoopGo stringify uid now c docIdArg existingVal updates0 optInstant
        optInverse noCheckFlag count { s with items := s.items ++ [item] }
        db trace (i + 1) rest

structure UpdateOutcome where
  builder : BuilderState
  db : DB
  trace : List AppOp
  result : Option Bool
deriving DecidableEq

/-- `Transact.prototype.update(collection, doc, updates, opt, callback)` on
the server with the default (always-granting) `checkPermission`: guard
against an already-failed transaction or a missing user, fetch the prior
document, auto-open a transaction if none is open (`genId` standing for
`Random.id()`), run the per-command loop, auto-commit if the transaction
was auto-opened, and return `!this._rollback` (read after the auto-commit,
which may have reset it). -/
def updateMethod (parse : Value → Except Unit Value) (stringify : Value → String)
    (removeRolledBack : Bool) (uid : Option String) (genId : String)
    (po : ProcessOutcome) (now : Nat) (c : String) (docIdArg : String)
    (updates0 : Modifier) (opt : Option UpdateOpt) (s : BuilderState) (db : DB) :
    Except Unit UpdateOutcome :=
  if s.rollbackFlag || uid.isNone then
    .ok { builder := s, db := db, trace := [], result := none }
  else
    let existingVal : Option Value :=
      ((findDocs db.colls c).find? (fun d => matchesSel d docIdArg none)).map .vObj
    let s1 :=
      if s.transaction_id.isNone then
        { s with autoTransaction := true, transaction_id := some genId,
                 description := "update " ++ c.dropRight 1 }
      else s
    let optInstant := (opt.map (fun o => o.instant)).getD false
    let optInverse := opt.bind (fun o => o.inverse)
    let noCheckFlag := (opt.map (fun o => o.overridePermissionCheck)).getD false
    match updateLoopGo stringify uid now c docIdArg existingVal updates0 optInstant
        optInverse noCheckFlag updates0.length s1 db [] 0 updates0 with
    | .error e => .error e
    | .ok (s2, db2, trace2) =>
      if s2.autoTransaction then
        match commitModel parse removeRolledBack uid
            (if opt.isSome then TxidArg.objArg else TxidArg.undef) false po s2 db2 with
        | .error e => .error e
        | .ok co =>
          .ok { builder := co.builder, db := co.db, trace := trace2 ++ co.trace,
                result := some (!co.builder.rollbackFlag) }
      else
        .ok { builder := s2, db := db2, trace := trace2,
              result := some (!s2.rollbackFlag) }

/-- Startup self-repair handler of `transactions-server.js`: a `switch` on
`tx.selfRepairMode` whose `complete` and `rollback` case bodies are empty,
so every mode leaves the store untouched. -/
def selfRepairStartup (mode : String) (db : DB) : DB :=
  if mode = "complete" then db
  else if mode = "rollback" then db
  else db

/-! ### Specification-side helper functions

Pure per-item descriptions of the operations the loops above attempt, used
to state the ordering claims, plus concrete fixtures. -/

/-- The commands having an entry in `tx.inverseOperations`. -/
def supportedCommands : List String :=
  ["$set", "$unset", "$addToSet", "$pull", "$inc", "$push"]

/-- The operation `rollback`'s loop attempts for one item (`none` both for
items that attempt nothing and for the unreachable unpackaging-failure
case, which aborts the whole rollback instead). -/
def rollbackTraceOp (parse : Value → Except Unit Value) (tid : Option String)
    (obj : Item) : Option AppOp :=
  match rollbackAttempt parse tid obj with
  | .ok o => o
  | .error _ => none

/-- The operation the undo scan queues for one item of a run in which no
staleness is detected. -/
def undoTraceOp (parse : Value → Except Unit Value) (colls : Collections)
    (txRecId : String) (obj : Item) : Option AppOp :=
  if obj.action = "remove" then
    match obj.doc with
    | some d =>
      let dup :=
        match d.lookup "_id" with
        | some idv => (findDocs colls obj.collection).any (fun d' => d'.lookup "_id" == some idv)
        | none => !(findDocs colls obj.collection).isEmpty
      if dup then none
      else some (.insert obj.collection d)
    | none =>
      some (.update obj.collection obj._id
        [("$unset", [("deleted", .vNum 1), ("transaction_id", .vStr txRecId)])])
  else if obj.action = "update" then
    match obj.inverse with
    | some inv =>
      if inv.command ≠ "" then
        match _unpackageForUpdate parse inv.data with
        | .ok data => some (.update obj.collection obj._id [(inv.command, data)])
        | .error _ => none
      else none
    | none => none
  else if obj.action = "insert" then
    some (.remove obj.collection obj._id (some txRecId))
  else none

/-- The operation the redo scan queues for one item of a run in which no
staleness is detected. -/
def redoTraceOp (parse : Value → Except Unit Value) (colls : Collections)
    (txRecId : String) (now : Nat) (obj : Item) : Option AppOp :=
  if obj.action = "remove" then
    match obj.doc with
    | some _ => some (.remove obj.collection obj._id none)
    | none =>
      some (.update obj.collection obj._id
        [("$set", [("deleted", .vNum now), ("transaction_id", .vStr txRecId)])])
  else if obj.action = "update" then
    match obj.update with
    | some u =>
      if u.command ≠ "" then
        match _unpackageForUpdate parse u.data with
        | .ok data => some (.update obj.collection obj._id [(u.command, data)])
        | .error _ => none
      else none
    | none => none
  else if obj.action = "insert" then
    if (findDocs colls obj.collection).any (fun d' => d'.lookup "_id" == some (.vStr obj._id)) then
      none
    else
      some (.insert obj.collection
        (objAssign (objAssign (obj.newDoc.getD []) "transaction_id" (.vStr txRecId))
          "_id" (.vStr obj._id)))
  else none

/-- The prior value of key `k` in document `D`, when the drill-down finds
one. -/
def drillSome (D : Value) (k : String) : Option Value :=
  match _drillDown (some D) k with
  | .ok (some v) => some v
  | _ => none

/-- The claim about `_inverseUsingSet` evaluated at a concrete prior
document and update map: for every key of the map, the computed inverse
`$set`s the key to its prior value when the key existed and `$unset`s it
when it did not. -/
def c4claimHolds (D : Value) (M : List (String × Value)) : Bool :=
  match _inverseUsingSet (some D) M with
  | .error _ => true
  | .ok inv =>
    M.all (fun kv =>
      match _drillDown (some D) kv.1 with
      | .ok (some pv) => inv.command == "$set" && inv.data.lookup kv.1 == some pv
      | .ok none => inv.command == "$unset" && inv.data.lookup kv.1 == some (Value.vStr "")
      | .error _ => true)

/-- A store as left by a crash between phases of a commit: the persisted
transaction is still `pending`, its instant insert is applied (item
`done`), its queued update is not (item `pending`).  This mirrors the
hardware-failure scenario of the package's own recovery tests. -/
def pendingExampleDB : DB :=
  ⟨[{ _id := "T1", user_id := some "u", description := "insert foo", context := [],
      items := some
        [{ collection := "foo", _id := "f1", action := "insert", state := "done",
           instant := true, noCheck := false,
           newDoc := some [("_id", .vStr "f1"), ("state", .vStr "initial")] },
         { collection := "foo", _id := "f1", action := "update", state := "pending",
           instant := false, noCheck := false,
           update := some ⟨"$set", [⟨"state", .vStr "final"⟩]⟩,
           inverse := some ⟨"$set", [⟨"state", .vStr "initial"⟩]⟩ }],
      state := "pending", lastModified := 5 }],
    [("foo", [[("_id", .vStr "f1"), ("state", .vStr "initial"),
               ("transaction_id", .vStr "T1")]])]⟩

/-- A builder with an open transaction `T1` and no queued items. -/
def exBuilderOpen : BuilderState :=
  { transaction_id := some "T1", autoTransaction := false, items := [],
    startAttempts := 0, rollbackFlag := false, rollbackReason := "",
    context := [], description := "d" }

/-- A store with one `posts` document and no transaction records. -/
def exDBPosts : DB := ⟨[], [("posts", [[("_id", .vStr "p1"), ("a", .vNum 1)]])]⟩

/-- An instant update item on `posts/p1` setting `x := n` with stored
inverse `$set x := n - 1`. -/
def exInstantUpdateItem (n : Int) : Item :=
  { collection := "posts", _id := "p1", action := "update", state := "done",
    instant := true, noCheck := false,
    update := some ⟨"$set", [⟨"x", .vNum n⟩]⟩,
    inverse := some ⟨"$set", [⟨"x", .vNum (n - 1)⟩]⟩ }

/-- The inverse-application operation of `exInstantUpdateItem (n + 1)`. -/
def exInverseOp (n : Int) : AppOp := .update "posts" "p1" [("$set", [("x", .vNum n)])]

/-- A persisted done transaction `T1` that inserted `posts/a1` and then
updated it (`x: 1 ↦ 2`), together with the store as commit left it. -/
def exItemInsert : Item :=
  { collection := "posts", _id := "a1", action := "insert", state := "done",
    instant := false, noCheck := false,
    newDoc := some [("_id", .vStr "a1"), ("x", .vNum 1)] }

def exItemUpdate : Item :=
  { collection := "posts", _id := "a1", action := "update", state := "done",
    instant := false, noCheck := false,
    update := some ⟨"$set", [⟨"x", .vNum 2⟩]⟩,
    inverse := some ⟨"$set", [⟨"x", .vNum 1⟩]⟩ }

def exRecDone : TxRecord :=
  { _id := "T1", user_id := some "u", description := "d", context := [],
    items := some [exItemInsert, exItemUpdate], state := "done", lastModified := 5 }

def exDBUndoable : DB :=
  ⟨[exRecDone], [("posts", [[("_id", .vStr "a1"), ("transaction_id", .vStr "T1"),
                             ("x", .vNum 2)]])]⟩

/-- The same transaction record, but `posts/a1` has since been tagged by a
different transaction `T2` — the staleness scenario. -/
def exDBStale : DB :=
  ⟨[exRecDone], [("posts", [[("_id", .vStr "a1"), ("transaction_id", .vStr "T2"),
                             ("x", .vNum 2)]])]⟩

/-- The transaction record `_recordTransaction` produces for the first
instant action of the open transaction `T1` on an empty store. -/
def exRecordedPending : TxRecord :=
  { _id := "T1", user_id := some "u", description := "d", context := [],
    items := some [exInstantUpdateItem 1], state := "pending", lastModified := 7 }

def itemUndone (it : Item) : Item := { it with state := "undone" }

/-- The store `_meteorTransactionsUndo` leaves after undoing `T1` in
`exDBUndoable` at time 9. -/
def exUndoneDB : DB :=
  ⟨[{ _id := "T1", user_id := some "u", description := "d", context := [],
      items := some [itemUndone exItemInsert, itemUndone exItemUpdate],
      state := "undone", lastModified := 5, undone := some (some 9) }],
   [("posts", [])]⟩

def exUndoTrace : List AppOp :=
  [.update "posts" "a1" [("$set", [("x", .vNum 1)])],
   .remove "posts" "a1" (some "T1")]

/-- The store `_meteorTransactionsRedo` leaves after redoing `T1` in
`exUndoneDB` at time 12. -/
def exRedoneDB : DB :=
  ⟨[exRecDone],
   [("posts", [[("_id", .vStr "a1"), ("x", .vNum 2), ("transaction_id", .vStr "T1")]])]⟩

def exRedoTrace : List AppOp :=
  [.insert "posts" [("_id", .vStr "a1"), ("x", .vNum 1), ("transaction_id", .vStr "T1")],
   .update "posts" "a1" [("$set", [("x", .vNum 2)])]]

/-- A builder holding two instant update items, to roll back. -/
def sRB : BuilderState :=
  { exBuilderOpen with items := [exInstantUpdateItem 1, exInstantUpdateItem 2] }

/-! ## Theorems -/

/-! ### Helper lemmas for the Inverse Operation Calculator -/

theorem inverseUsingSetGo_allSome (D : Value) (M : List (String × Value)) :
    ∀ (acc : List (String × Value)),
      (∀ kv ∈ M, (drillSome D kv.1).isSome) →
      inverseUsingSetGo (some D) M "$set" acc
        = .ok ("$set", acc ++ M.map (fun kv => (kv.1, (drillSome D kv.1).getD (.vStr "")))) := by
  induction M with
  | nil => intro acc _; simp [inverseUsingSetGo]
  | cons kv rest ih =>
    intro acc h
    obtain ⟨k, v⟩ := kv
    have hk : (drillSome D k).isSome := h (k, v) (List.mem_cons_self _ _)
    cases hd : _drillDown (some D) k with
    | error e => simp [drillSome, hd] at hk
    | ok o =>
      cases o with
      | none => simp [drillSome, hd] at hk
      | some pv =>
        have hds : drillSome D k = some pv := by simp [drillSome, hd]
        simp only [inverseUsingSetGo, hd]
        rw [ih (acc ++ [(k, pv)]) (fun kv hkv => h kv (List.mem_cons_of_mem _ hkv))]
        simp [hds]

theorem inverseUsingSetGo_allNone (D : Value) (M : List (String × Value)) :
    ∀ (acc : List (String × Value)) (c : String),
      (∀ kv ∈ M, _drillDown (some D) kv.1 = .ok none) →
      inverseUsingSetGo (some D) M c acc
        = .ok ((if M.isEmpty then c else "$unset"),
               acc ++ M.map (fun kv => (kv.1, Value.vStr ""))) := by
  induction M with
  | nil => intro acc c _; simp [inverseUsingSetGo]
  | cons kv rest ih =>
    intro acc c h
    obtain ⟨k, v⟩ := kv
    have hd := h (k, v) (List.mem_cons_self _ _)
    simp only [inverseUsingSetGo, hd]
    rw [ih (acc ++ [(k, Value.vStr "")]) "$unset" (fun kv hkv => h kv (List.mem_cons_of_mem _ hkv))]
    simp

/-! ### Claim C4 -/

/-- Claim C4, as stated, is false: `_inverseUsingSet` keeps a *single*
`inverseCommand` variable that each key overwrites, so for the prior
document `{a: 1}` and the mixed update map `{a: 2, b: 3}` (key `a` existed,
key `b` did not) the computed inverse is `$unset` of *both* keys — data
`{a: 1, b: ''}` under command `$unset` — although key `a` existed and the
claim requires `$set a := 1`. -/
theorem c4_mixed_keys_counterexample :
    c4claimHolds (.vObj [("a", .vNum 1)]) [("a", .vNum 2), ("b", .vNum 3)] = false ∧
    _inverseUsingSet (some (.vObj [("a", .vNum 1)])) [("a", .vNum 2), ("b", .vNum 3)]
      = .ok ⟨"$unset", [("a", .vNum 1), ("b", .vStr "")]⟩ :=
  ⟨by decide, by decide⟩

/-- Claim C4 (amended): for `$set`, `$unset` and `$inc` the computed
inverse is `_inverseUsingSet`; when *every* key of the update map existed
in the prior document the inverse is `$set` of each key to its prior
value, and when *no* key existed it is `$unset` of every key (with `''`
values).  For maps mixing both kinds the single stored command is decided
by the last key, as the counterexample shows. -/
theorem c4_inverse_prior_value_amended :
    (∀ (D : Option Value) (M : List (String × Value)),
        computeDefaultInverse "$set" D M = _inverseUsingSet D M ∧
        computeDefaultInverse "$unset" D M = _inverseUsingSet D M ∧
        computeDefaultInverse "$inc" D M = _inverseUsingSet D M) ∧
    (∀ (D : Value) (M : List (String × Value)),
        (∀ kv ∈ M, (drillSome D kv.1).isSome) →
        _inverseUsingSet (some D) M
          = .ok ⟨"$set", M.map (fun kv => (kv.1, (drillSome D kv.1).getD (.vStr "")))⟩) ∧
    (∀ (D : Value) (M : List (String × Value)),
        M ≠ [] →
        (∀ kv ∈ M, _drillDown (some D) kv.1 = .ok none) →
        _inverseUsingSet (some D) M
          = .ok ⟨"$unset", M.map (fun kv => (kv.1, Value.vStr ""))⟩) := by
  refine ⟨fun D M => ⟨rfl, rfl, rfl⟩, fun D M h => ?_, fun D M hne h => ?_⟩
  · rw [_inverseUsingSet, inverseUsingSetGo_allSome D M [] h]
    simp
  · rw [_inverseUsingSet, inverseUsingSetGo_allNone D M [] "$set" h]
    cases M with
    | nil => exact absurd rfl hne
    | cons a as => simp

/-- Witness for `c4_inverse_prior_value_amended` at the prior document
`{a: 1, b: 2}` and update map `{a: 5, b: 6}`. -/
theorem c4_inverse_prior_value_witness :
    (∀ kv ∈ ([("a", Value.vNum 5), ("b", Value.vNum 6)] : List (String × Value)),
        (drillSome (.vObj [("a", .vNum 1), ("b", .vNum 2)]) kv.1).isSome) ∧
    _inverseUsingSet (some (.vObj [("a", .vNum 1), ("b", .vNum 2)]))
        [("a", Value.vNum 5), ("b", Value.vNum 6)]
      = .ok ⟨"$set", [("a", .vNum 1), ("b", .vNum 2)]⟩ := by
  refine ⟨by decide, ?_⟩
  have h := c4_inverse_prior_value_amended.2.1 (.vObj [("a", .vNum 1), ("b", .vNum 2)])
    [("a", Value.vNum 5), ("b", Value.vNum 6)] (by decide)
  rw [h]
  decide

/-! ### Claim C6 -/

/-- Claim C6 (code bug): the startup self-repair handler is a stub — its
`switch` on `tx.selfRepairMode` has empty `complete` and `rollback` case
bodies — so a transaction left in the non-terminal `pending` state is
neither completed nor rolled back on startup: the store comes back
unchanged, `pending` record and all, under every policy. -/
theorem c6_self_repair_is_a_stub :
    selfRepairStartup "complete" pendingExampleDB = pendingExampleDB ∧
    selfRepairStartup "rollback" pendingExampleDB = pendingExampleDB ∧
    pendingExampleDB.txs.map (fun r => r.state) = ["pending"] :=
  ⟨rfl, rfl, rfl⟩

/-! ### Claim C7 -/

theorem objAssign_append (acc : List (String × Value)) (k : String) (v : Value)
    (h : ∀ a ∈ acc, a.1 ≠ k) : objAssign acc k v = acc ++ [(k, v)] := by
  have hany : acc.any (fun kv => kv.1 = k) = false := by
    rw [List.any_eq_false]
    intro a ha
    simp [h a ha]
  simp [objAssign, hany]

theorem getProp_obj_json (x : Value) :
    getProp (.vObj [("json", x)]) "json" = .ok (some x) := by
  simp [getProp, List.lookup]

theorem unpackageGo_roundtrip (S : Value → String) (P : Value → Except Unit Value) :
    ∀ (data acc : List (String × Value)),
      (data.map Prod.fst).Nodup →
      (∀ kv ∈ data, kv.2 ≠ Value.vNull) →
      (∀ kv ∈ data, isObjectJS kv.2 = true → S kv.2 ≠ "" ∧ P (.vStr (S kv.2)) = .ok kv.2) →
      (∀ kv ∈ data, ∀ a ∈ acc, a.1 ≠ kv.1) →
      unpackageGo P
        (data.map (fun kv =>
          { key := kv.1,
            value := if isObjectJS kv.2 then .vObj [("json", .vStr (S kv.2))] else kv.2 }))
        acc
        = .ok (acc ++ data) := by
  intro data
  induction data with
  | nil => intro acc _ _ _ _; simp [unpackageGo]
  | cons kv rest ih =>
    intro acc hnodup hnull hobj hdisj
    obtain ⟨k, v⟩ := kv
    have hmem : (k, v) ∈ (k, v) :: rest := List.mem_cons_self _ _
    have hnd : k ∉ rest.map Prod.fst ∧ (rest.map Prod.fst).Nodup := by
      rw [List.map_cons, List.nodup_cons] at hnodup
      exact hnodup
    have hknotin : ∀ p ∈ rest, (p : String × Value).1 ≠ k := by
      intro p hp hpk
      exact hnd.1 (hpk ▸ List.mem_map_of_mem Prod.fst hp)
    have hassign : objAssign acc k v = acc ++ [(k, v)] :=
      objAssign_append acc k v (fun a ha => hdisj (k, v) hmem a ha)
    have hrec := ih (acc ++ [(k, v)]) hnd.2
      (fun p hp => hnull p (List.mem_cons_of_mem _ hp))
      (fun p hp hob => hobj p (List.mem_cons_of_mem _ hp) hob)
      (by
        intro p hp a ha
        rcases List.mem_append.mp ha with hacc | hone
        · exact hdisj p (List.mem_cons_of_mem _ hp) a hacc
        · have : a = (k, v) := by simpa using hone
          subst this
          exact fun hk => hknotin p hp hk.symm)
    by_cases ho : isObjectJS v = true
    · have hS : S v ≠ "" := (hobj (k, v) hmem ho).1
      have hP : P (.vStr (S v)) = .ok v := (hobj (k, v) hmem ho).2
      have htr : truthy (.vStr (S v)) = true := by simp [truthy, hS]
      simp only [List.map_cons, unpackageGo, if_pos ho, getProp_obj_json, htr, if_true,
        hP, hassign]
      rw [hrec]
      simp
    · have hv : v ≠ Value.vNull := hnull (k, v) hmem
      have hget : getProp v "json" = .ok none := by
        cases v with
        | vNull => exact absurd rfl hv
        | vBool b => rfl
        | vNum n => rfl
        | vStr s => rfl
        | vArr l => exact absurd rfl ho
        | vObj fs => exact absurd rfl ho
      simp only [List.map_cons, unpackageGo, if_neg ho, hget, hassign]
      rw [hrec]
      simp

/-- Claim C7, as stated, is false for a `null` value: `null` is a scalar
(`_.isObject(null)` is false), so `_packageForStorage` stores it bare, and
`_unpackageForUpdate` then evaluates `val.value.json` — a property read on
`null` — which throws a `TypeError` instead of reproducing the map. -/
theorem c7_null_scalar_counterexample :
    _unpackageForUpdate jsonParseModel
      ((_packageForStorage jsonStringifyModel ⟨"$set", [("k", Value.vNull)]⟩).data)
      = .error () ∧
    (Except.error () : Except Unit (List (String × Value))) ≠ .ok [("k", Value.vNull)] :=
  ⟨by decide, by decide⟩

/-- Claim C7 (amended): for every update map with pairwise-distinct keys
whose values are non-`null` scalars or objects/arrays on which the external
`JSON.stringify`/`JSON.parse` pair round-trips (producing a non-empty
string), deserializing the serialized storage form reproduces the map
exactly: `_unpackageForUpdate (_packageForStorage {command, data}).data =
data`. -/
theorem c7_package_unpackage_roundtrip_amended
    (S : Value → String) (P : Value → Except Unit Value) (cmd : String)
    (data : List (String × Value))
    (h1 : (data.map Prod.fst).Nodup)
    (h2 : ∀ kv ∈ data, kv.2 ≠ Value.vNull)
    (h3 : ∀ kv ∈ data, isObjectJS kv.2 = true → S kv.2 ≠ "" ∧ P (.vStr (S kv.2)) = .ok kv.2) :
    _unpackageForUpdate P ((_packageForStorage S ⟨cmd, data⟩).data) = .ok data := by
  have := unpackageGo_roundtrip S P data [] h1 h2 h3 (by simp)
  simpa [_unpackageForUpdate, _packageForStorage] using this

/-- Witness for `c7_package_unpackage_roundtrip_amended` on the map
`{a: 5, b: {c: true}}` with a concrete round-tripping serializer pair. -/
theorem c7_roundtrip_witness :
    (∀ kv ∈ ([("a", Value.vNum 5), ("b", Value.vObj [("c", Value.vBool true)])] :
        List (String × Value)), kv.2 ≠ Value.vNull) ∧
    _unpackageForUpdate (fun _ => .ok (.vObj [("c", Value.vBool true)]))
      ((_packageForStorage (fun _ => "J")
        ⟨"$set", [("a", Value.vNum 5), ("b", Value.vObj [("c", Value.vBool true)])]⟩).data)
      = .ok [("a", Value.vNum 5), ("b", Value.vObj [("c", Value.vBool true)])] :=
  ⟨by decide,
   c7_package_unpackage_roundtrip_amended (fun _ => "J")
     (fun _ => .ok (.vObj [("c", Value.vBool true)])) "$set"
     [("a", Value.vNum 5), ("b", Value.vObj [("c", Value.vBool true)])]
     (by decide) (by decide) (by decide)⟩

/-! ### Claim C5 -/

theorem inverseOperationsApply_none (cmd : String) (h : cmd ∉ supportedCommands)
    (D : Option Value) (M : List (String × Value)) :
    inverseOperationsApply cmd D M = none := by
  simp only [supportedCommands, List.mem_cons, List.not_mem_nil, or_false, not_or] at h
  obtain ⟨h1, h2, h3, h4, h5, h6⟩ := h
  simp [inverseOperationsApply, h1, h2, h3, h4, h5, h6]

/-- Claim C5, as stated, is false: an update with the unsupported command
`$rename` and no caller-supplied inverse is not rejected.  The dispatch
`_.isFunction(inverseOperations[cmd]) && … || _inverseUsingSet(…)` falls
back to `_inverseUsingSet`, so the action is queued (pushed onto
`this._items` with a silently computed `$set`-to-prior-value inverse) and
the call returns `true`. -/
theorem c5_unknown_command_not_rejected_counterexample :
    updateMethod jsonParseModel jsonStringifyModel false (some "u") "G"
      ProcessOutcome.succeeds 7 "posts" "p1" [("$rename", [("a", Value.vStr "b")])]
      none exBuilderOpen exDBPosts
      = .ok { builder :=
                { exBuilderOpen with
                  items := [{ collection := "posts", _id := "p1", action := "update",
                              state := "pending", instant := false, noCheck := false,
                              update := some ⟨"$rename", [⟨"a", Value.vStr "b"⟩]⟩,
                              inverse := some ⟨"$set", [⟨"a", Value.vNum 1⟩]⟩ }] },
              db := exDBPosts, trace := [], result := some true } := by
  decide

/-- Claim C5 (amended): an update whose command lies outside the supported
set and that carries no explicit caller inverse is *not* rejected — its
inverse silently falls back to the default prior-value-restore
`_inverseUsingSet`, the action is queued on `this._items` with that
inverse, nothing is written to the store, and the call returns `true`. -/
theorem c5_unknown_command_falls_back_amended
    (parse : Value → Except Unit Value) (stringify : Value → String)
    (rb : Bool) (u genId : String) (po : ProcessOutcome) (now : Nat)
    (c id cmd : String) (M : List (String × Value)) (s : BuilderState) (db : DB)
    (t : String) (inv : UpdateArg)
    (hrb : s.rollbackFlag = false)
    (hauto : s.autoTransaction = false)
    (ht : s.transaction_id = some t)
    (hcmd : cmd ∉ supportedCommands)
    (hinv : _inverseUsingSet
        (((findDocs db.colls c).find? (fun d => matchesSel d id none)).map .vObj) M
      = .ok inv) :
    updateMethod parse stringify rb (some u) genId po now c id [(cmd, M)] none s db
      = .ok { builder :=
                { s with
                  items := s.items ++
                    [{ collection := c, _id := id, action := "update",
                       state := "pending", instant := false, noCheck := false,
                       update := some (_packageForStorage stringify ⟨cmd, M⟩),
                       inverse := some (_packageForStorage stringify inv) }] },
              db := db, trace := [], result := some true } := by
  have hnone := inverseOperationsApply_none cmd hcmd
    (((findDocs db.colls c).find? (fun d => matchesSel d id none)).map .vObj) M
  simp [updateMethod, updateLoopGo, computeDefaultInverse, hnone, hinv, hrb, hauto, ht,
    Bind.bind, Except.bind]

/-- Witness for `c5_unknown_command_falls_back_amended`: the unsupported
command `$max` on a key absent from the prior document is queued with the
fallback `$unset` inverse. -/
theorem c5_unknown_command_witness :
    ("$max" ∉ supportedCommands) ∧
    updateMethod jsonParseModel jsonStringifyModel false (some "u") "G"
      ProcessOutcome.succeeds 7 "posts" "p1" [("$max", [("zz", Value.vNum 9)])]
      none exBuilderOpen exDBPosts
      = .ok { builder :=
                { exBuilderOpen with
                  items := [{ collection := "posts", _id := "p1", action := "update",
                              state := "pending", instant := false, noCheck := false,
                              update := some ⟨"$max", [⟨"zz", Value.vNum 9⟩]⟩,
                              inverse := some ⟨"$unset", [⟨"zz", Value.vStr ""⟩]⟩ }] },
              db := exDBPosts, trace := [], result := some true } :=
  ⟨by decide,
   c5_unknown_command_falls_back_amended jsonParseModel jsonStringifyModel false "u" "G"
     ProcessOutcome.succeeds 7 "posts" "p1" "$max" [("zz", Value.vNum 9)]
     exBuilderOpen exDBPosts "T1" ⟨"$unset", [("zz", Value.vStr "")]⟩
     rfl rfl rfl (by decide) (by decide)⟩

/-! ### Claim C8 -/

/-- Claim C8: a transaction record with an empty `items` sequence is never
persisted.  First conjunct: a commit whose item list is empty invokes
neither the process method nor the rollback pass and leaves the store
untouched (and every other path to the store goes through those two).
Second conjunct: `_recordTransaction` — the only other writer of
transaction records, used by instant actions — always leaves the record
with a non-empty `items` array (the fresh record it may insert has no
`items` field at all, and the `$addToSet` immediately populates it). -/
theorem c8_empty_transaction_never_persisted :
    (∀ (parse : Value → Except Unit Value) (rb : Bool) (uid : Option String)
        (txidArg : TxidArg) (hasCb : Bool) (po : ProcessOutcome)
        (s : BuilderState) (db : DB) (out : CommitOutcome),
        s.items = [] →
        commitModel parse rb uid txidArg hasCb po s db = .ok out →
        out.db = db ∧ out.processCalled = false ∧ out.rollbackCalled = false) ∧
    (∀ (uid : Option String) (s : BuilderState) (now : Nat) (txs : List TxRecord)
        (item : Item) (t : String) (r : TxRecord),
        s.transaction_id = some t →
        r ∈ _recordTransaction uid s now txs item →
        r._id = t →
        ∃ l, r.items = some l ∧ l ≠ []) := by
  constructor
  · intro parse rb uid txidArg hasCb po s db out hempty h
    simp only [commitModel, hempty, List.isEmpty_nil] at h
    split at h
    · cases h; exact ⟨rfl, rfl, rfl⟩
    · split at h
      · cases h; exact ⟨rfl, rfl, rfl⟩
      · split at h
        · cases h; exact ⟨rfl, rfl, rfl⟩
        · split at h
          · cases h; exact ⟨rfl, rfl, rfl⟩
          · cases h; exact ⟨rfl, rfl, rfl⟩
  · intro uid s now txs item t r ht hmem hid
    simp only [_recordTransaction, ht, txUpdate] at hmem
    rcases List.mem_map.mp hmem with ⟨q, hq, hr⟩
    by_cases hq2 : q._id = t
    · rw [if_pos hq2] at hr
      subst hr
      cases hqi : q.items with
      | none => exact ⟨[item], by simp [hqi], by simp⟩
      | some l =>
        by_cases hc : l.contains item = true
        · refine ⟨l, congrArg some (if_pos hc), ?_⟩
          intro hnil
          subst hnil
          simp at hc
        · exact ⟨l ++ [item], congrArg some (if_neg hc), by simp⟩
    · rw [if_neg hq2] at hr
      subst hr
      exact absurd hid hq2

/-- Witness for `c8_empty_transaction_never_persisted`: a commit of the
open, empty transaction `T1` makes no store call, and recording an item on
`T1` yields a record whose `items` holds that item. -/
theorem c8_empty_transaction_witness :
    (exBuilderOpen.items = [] ∧
     commitModel jsonParseModel false (some "u") TxidArg.undef true
       ProcessOutcome.succeeds exBuilderOpen exDBPosts
       = .ok { builder := exBuilderOpen, db := exDBPosts, trace := [],
               callbackErrors := [], callbackSuccess := false,
               processCalled := false, rollbackCalled := false,
               result := some true } ∧
     ({ builder := exBuilderOpen, db := exDBPosts, trace := [],
        callbackErrors := [], callbackSuccess := false,
        processCalled := false, rollbackCalled := false,
        result := some true } : CommitOutcome).db = exDBPosts) ∧
    (exBuilderOpen.transaction_id = some "T1" ∧
     exRecordedPending ∈ _recordTransaction (some "u") exBuilderOpen 7 []
       (exInstantUpdateItem 1) ∧
     ∃ l, exRecordedPending.items = some l ∧ l ≠ []) := by
  constructor
  · have hcm : commitModel jsonParseModel false (some "u") TxidArg.undef true
        ProcessOutcome.succeeds exBuilderOpen exDBPosts
        = .ok { builder := exBuilderOpen, db := exDBPosts, trace := [],
                callbackErrors := [], callbackSuccess := false,
                processCalled := false, rollbackCalled := false,
                result := some true } := by decide
    exact ⟨rfl, hcm,
      (c8_empty_transaction_never_persisted.1 jsonParseModel false (some "u")
        TxidArg.undef true ProcessOutcome.succeeds exBuilderOpen exDBPosts _ rfl hcm).1⟩
  · have hmem : exRecordedPending ∈ _recordTransaction (some "u") exBuilderOpen 7 []
        (exInstantUpdateItem 1) := by
      decide
    exact ⟨rfl, hmem,
      c8_empty_transaction_never_persisted.2 (some "u") exBuilderOpen 7 []
        (exInstantUpdateItem 1) "T1" _ rfl hmem rfl⟩

/-! ### Claim C10 -/

/-- Claim C10: committing an open transaction whose item list is empty
(with no nested `start` attempts pending) returns `true`, never invokes the
caller's callback — with neither an error nor a result — and leaves the
store untouched: the "Empty transaction removed" branch only logs. -/
theorem c10_commit_empty_returns_true_no_callback
    (parse : Value → Except Unit Value) (rb : Bool) (u : String) (hasCb : Bool)
    (po : ProcessOutcome) (s : BuilderState) (db : DB) (t : String)
    (ht : s.transaction_id = some t)
    (hempty : s.items = [])
    (hsa : s.startAttempts ≤ 0) :
    commitModel parse rb (some u) TxidArg.undef hasCb po s db
      = .ok { builder := s, db := db, trace := [], callbackErrors := [],
              callbackSuccess := false, processCalled := false,
              rollbackCalled := false, result := some true } := by
  have hdec : decide (s.startAttempts > 0) = false := by
    simp [not_lt.mpr hsa]
  simp [commitModel, ht, hempty, hdec]

/-- Witness for `c10_commit_empty_returns_true_no_callback` on the open,
empty transaction `T1` with a callback supplied. -/
theorem c10_commit_empty_witness :
    (exBuilderOpen.transaction_id = some "T1" ∧ exBuilderOpen.items = [] ∧
     exBuilderOpen.startAttempts ≤ 0) ∧
    commitModel jsonParseModel true (some "u") TxidArg.undef true
      ProcessOutcome.throwsSync exBuilderOpen exDBPosts
      = .ok { builder := exBuilderOpen, db := exDBPosts, trace := [],
              callbackErrors := [], callbackSuccess := false,
              processCalled := false, rollbackCalled := false,
              result := some true } :=
  ⟨⟨rfl, rfl, by decide⟩,
   c10_commit_empty_returns_true_no_callback jsonParseModel true "u" true
     ProcessOutcome.throwsSync exBuilderOpen exDBPosts "T1" rfl rfl (by decide)⟩

/-! ### Helper lemmas for the Undo/Redo Engine -/

/-- Queue processing attempts every queued operation, in queue order. -/
theorem execQueueGo_trace (txid : String) (stName : String) (idxMap : Nat → Nat) :
    ∀ (queued : List AppOp) (es : ExecState) (i : Nat),
      (execQueueGo txid stName idxMap es queued i).trace = es.trace ++ queued := by
  intro queued
  induction queued with
  | nil => intro es i; simp [execQueueGo]
  | cons op rest ih =>
    intro es i
    simp only [execQueueGo]
    cases h : applyAppOp es.colls op with
    | ok colls' => rw [ih]; simp
    | error e => rw [ih]; simp

/-- Once the undo scan has flagged staleness, the remaining steps do
nothing. -/
theorem undoScanStep_of_expired (parse : Value → Except Unit Value) (colls : Collections)
    (txRecId : String) (obj : Item) (st : ScanState) (h : st.expired = true) :
    undoScanStep parse colls txRecId st obj = .ok st := by
  simp [undoScanStep, h]

theorem undoScan_fold_of_expired (parse : Value → Except Unit Value) (colls : Collections)
    (txRecId : String) :
    ∀ (items : List Item) (st : ScanState), st.expired = true →
      List.foldlM (undoScanStep parse colls txRecId) st items = .ok st := by
  intro items
  induction items with
  | nil => intro st _; rfl
  | cons obj rest ih =>
    intro st h
    rw [List.foldlM_cons, undoScanStep_of_expired parse colls txRecId obj st h]
    exact ih st h

/-- One non-expired undo-scan step either flags staleness or queues exactly
the item's reversing operation. -/
theorem undoScanStep_spec (parse : Value → Except Unit Value) (colls : Collections)
    (txRecId : String) (obj : Item) (st st₁ : ScanState)
    (h : st.expired = false)
    (hs : undoScanStep parse colls txRecId st obj = .ok st₁) :
    st₁.expired = true ∨
    (st₁.expired = false ∧
     st₁.queued = st.queued ++ (undoTraceOp parse colls txRecId obj).toList) := by
  by_cases h1 : obj.action = "remove"
  · cases hd : obj.doc with
    | some d =>
      by_cases hdup : (match d.lookup "_id" with
          | some idv => (findDocs colls obj.collection).any (fun d' => d'.lookup "_id" == some idv)
          | none => !(findDocs colls obj.collection).isEmpty) = true
      · have hstep : undoScanStep parse colls txRecId st obj = .ok ⟨true, st.queued⟩ := by
          simp [undoScanStep, h1, h, hd, hdup]
        rw [hstep] at hs
        cases hs
        exact Or.inl rfl
      · have hstep : undoScanStep parse colls txRecId st obj
            = .ok ⟨false, st.queued ++ [.insert obj.collection d]⟩ := by
          simp [undoScanStep, h1, h, hd, hdup]
        rw [hstep] at hs
        cases hs
        exact Or.inr ⟨rfl, by simp [undoTraceOp, h1, hd, hdup]⟩
    | none =>
      have hstep : undoScanStep parse colls txRecId st obj
          = .ok ⟨false, st.queued ++
              [.update obj.collection obj._id
                [("$unset", [("deleted", .vNum 1), ("transaction_id", .vStr txRecId)])]]⟩ := by
        simp [undoScanStep, h1, h, hd]
      rw [hstep] at hs
      cases hs
      exact Or.inr ⟨rfl, by simp [undoTraceOp, h1, hd]⟩
  · by_cases h2 : obj.action = "update"
    · cases hi : obj.inverse with
      | some inv =>
        by_cases hcmd : inv.command = ""
        · have hstep : undoScanStep parse colls txRecId st obj = .ok st := by
            simp [undoScanStep, h1, h2, h, hi, hcmd]
          rw [hstep] at hs
          cases hs
          exact Or.inr ⟨h, by simp [undoTraceOp, h1, h2, hi, hcmd]⟩
        · cases hup : _unpackageForUpdate parse inv.data with
          | error e =>
            have hstep : undoScanStep parse colls txRecId st obj = .error e := by
              simp [undoScanStep, h1, h2, h, hi, hcmd, hup]
            rw [hstep] at hs
            exact absurd hs (by simp)
          | ok data =>
            have hstep : undoScanStep parse colls txRecId st obj
                = .ok ⟨false, st.queued ++
                    [.update obj.collection obj._id [(inv.command, data)]]⟩ := by
              simp [undoScanStep, h1, h2, h, hi, hcmd, hup]
            rw [hstep] at hs
            cases hs
            exact Or.inr ⟨rfl, by simp [undoTraceOp, h1, h2, hi, hcmd, hup]⟩
      | none =>
        have hstep : undoScanStep parse colls txRecId st obj = .ok st := by
          simp [undoScanStep, h1, h2, h, hi]
        rw [hstep] at hs
        cases hs
        exact Or.inr ⟨h, by simp [undoTraceOp, h1, h2, hi]⟩
    · by_cases h3 : obj.action = "insert"
      · by_cases hstale : ∃ x ∈ findDocs colls obj.collection,
            List.lookup "_id" x = some (Value.vStr obj._id) ∧
            (match List.lookup "transaction_id" x with
             | some tv => !decide (tv = Value.vStr txRecId)
             | none => false) = true
        · have hstep : undoScanStep parse colls txRecId st obj
              = .ok ⟨true, st.queued ++ [.remove obj.collection obj._id (some txRecId)]⟩ := by
            simp [undoScanStep, h1, h2, h3, h, hstale]
          rw [hstep] at hs
          cases hs
          exact Or.inl rfl
        · have hstale2 : ∀ x ∈ findDocs colls obj.collection,
              List.lookup "_id" x = some (Value.vStr obj._id) →
              (match List.lookup "transaction_id" x with
               | some tv => !decide (tv = Value.vStr txRecId)
               | none => false) = false := by
            intro x hx hid
            by_contra hb
            exact hstale ⟨x, hx, hid, by
              cases hmb : (match List.lookup "transaction_id" x with
                | some tv => !decide (tv = Value.vStr txRecId)
                | none => false) with
              | true => rfl
              | false => exact absurd hmb hb⟩
          have hstep : undoScanStep parse colls txRecId st obj
              = .ok ⟨false, st.queued ++ [.remove obj.collection obj._id (some txRecId)]⟩ := by
            simp [undoScanStep, h1, h2, h3, h]
            exact hstale2
          rw [hstep] at hs
          cases hs
          exact Or.inr ⟨rfl, by simp [undoTraceOp, h1, h2, h3]⟩
      · have hstep : undoScanStep parse colls txRecId st obj = .ok st := by
          simp [undoScanStep, h1, h2, h3]
        rw [hstep] at hs
        cases hs
        exact Or.inr ⟨h, by simp [undoTraceOp, h1, h2, h3]⟩

/-- The queue a non-expired undo scan builds is the per-item reversing
operations, in scan order. -/
theorem undoScan_fold_spec (parse : Value → Except Unit Value) (colls : Collections)
    (txRecId : String) :
    ∀ (items : List Item) (st st' : ScanState),
      st.expired = false →
      List.foldlM (undoScanStep parse colls txRecId) st items = .ok st' →
      st'.expired = false →
      st'.queued = st.queued ++ items.filterMap (undoTraceOp parse colls txRecId) := by
  intro items
  induction items with
  | nil =>
    intro st st' h hf h'
    cases hf
    simp
  | cons obj rest ih =>
    intro st st' h hf h'
    rw [List.foldlM_cons] at hf
    cases hstep : undoScanStep parse colls txRecId st obj with
    | error e => rw [hstep] at hf; exact absurd hf (by simp [Bind.bind, Except.bind])
    | ok st₁ =>
      rw [hstep] at hf
      have hbind : List.foldlM (undoScanStep parse colls txRecId) st₁ rest = .ok st' := by
        simpa [Bind.bind, Except.bind] using hf
      rcases undoScanStep_spec parse colls txRecId obj st st₁ h hstep with hexp | ⟨hexp, hq⟩
      · rw [undoScan_fold_of_expired parse colls txRecId rest st₁ hexp] at hbind
        cases hbind
        rw [h'] at hexp
        exact absurd hexp (by simp)
      · rw [ih st₁ st' hexp hbind h', hq, List.filterMap_cons]
        cases htr : undoTraceOp parse colls txRecId obj with
        | none => simp [htr, Option.toList]
        | some op => simp [htr, Option.toList]

/-- A redo-scan step never clears an already-set staleness flag (removes
and updates are queued regardless, but `expired` is preserved). -/
theorem redoScanStep_mono (parse : Value → Except Unit Value) (colls : Collections)
    (txRecId : String) (now : Nat) (obj : Item) (st st₁ : ScanState)
    (hs : redoScanStep parse colls txRecId now st obj = .ok st₁)
    (h : st.expired = true) : st₁.expired = true := by
  by_cases h1 : obj.action = "remove"
  · cases hd : obj.doc with
    | some d =>
      have hstep : redoScanStep parse colls txRecId now st obj
          = .ok ⟨st.expired, st.queued ++ [.remove obj.collection obj._id none]⟩ := by
        simp [redoScanStep, h1, hd]
      rw [hstep] at hs; cases hs; exact h
    | none =>
      have hstep : redoScanStep parse colls txRecId now st obj
          = .ok ⟨st.expired, st.queued ++
              [.update obj.collection obj._id
                [("$set", [("deleted", .vNum now), ("transaction_id", .vStr txRecId)])]]⟩ := by
        simp [redoScanStep, h1, hd]
      rw [hstep] at hs; cases hs; exact h
  · by_cases h2 : obj.action = "update"
    · cases hu : obj.update with
      | some u =>
        by_cases hcmd : u.command = ""
        · have hstep : redoScanStep parse colls txRecId now st obj = .ok st := by
            simp [redoScanStep, h1, h2, hu, hcmd]
          rw [hstep] at hs; cases hs; exact h
        · cases hup : _unpackageForUpdate parse u.data with
          | error e =>
            have hstep : redoScanStep parse colls txRecId now st obj = .error e := by
              simp [redoScanStep, h1, h2, hu, hcmd, hup]
            rw [hstep] at hs; exact absurd hs (by simp)
          | ok data =>
            have hstep : redoScanStep parse colls txRecId now st obj
                = .ok ⟨st.expired, st.queued ++
                    [.update obj.collection obj._id [(u.command, data)]]⟩ := by
              simp [redoScanStep, h1, h2, hu, hcmd, hup]
            rw [hstep] at hs; cases hs; exact h
      | none =>
        have hstep : redoScanStep parse colls txRecId now st obj = .ok st := by
          simp [redoScanStep, h1, h2, hu]
        rw [hstep] at hs; cases hs; exact h
    · by_cases h3 : obj.action = "insert"
      · have hstep : redoScanStep parse colls txRecId now st obj = .ok st := by
          simp [redoScanStep, h1, h2, h3, h]
        rw [hstep] at hs; cases hs; exact h
      · have hstep : redoScanStep parse colls txRecId now st obj = .ok st := by
          simp [redoScanStep, h1, h2, h3]
        rw [hstep] at hs; cases hs; exact h

theorem redoScan_fold_mono (parse : Value → Except Unit Value) (colls : Collections)
    (txRecId : String) (now : Nat) :
    ∀ (items : List Item) (st st' : ScanState), st.expired = true →
      List.foldlM (redoScanStep parse colls txRecId now) st items = .ok st' →
      st'.expired = true := by
  intro items
  induction items with
  | nil => intro st st' h hf; cases hf; exact h
  | cons obj rest ih =>
    intro st st' h hf
    rw [List.foldlM_cons] at hf
    cases hstep : redoScanStep parse colls txRecId now st obj with
    | error e => rw [hstep] at hf; exact absurd hf (by simp [Bind.bind, Except.bind])
    | ok st₁ =>
      rw [hstep] at hf
      exact ih st₁ st' (redoScanStep_mono parse colls txRecId now obj st st₁ hstep h)
        (by simpa [Bind.bind, Except.bind] using hf)

/-- One non-expired redo-scan step either flags staleness or queues exactly
the item's forward operation. -/
theorem redoScanStep_spec (parse : Value → Except Unit Value) (colls : Collections)
    (txRecId : String) (now : Nat) (obj : Item) (st st₁ : ScanState)
    (h : st.expired = false)
    (hs : redoScanStep parse colls txRecId now st obj = .ok st₁) :
    st₁.expired = true ∨
    (st₁.expired = false ∧
     st₁.queued = st.queued ++ (redoTraceOp parse colls txRecId now obj).toList) := by
  by_cases h1 : obj.action = "remove"
  · cases hd : obj.doc with
    | some d =>
      have hstep : redoScanStep parse colls txRecId now st obj
          = .ok ⟨false, st.queued ++ [.remove obj.collection obj._id none]⟩ := by
        simp [redoScanStep, h1, hd, h]
      rw [hstep] at hs; cases hs
      exact Or.inr ⟨rfl, by simp [redoTraceOp, h1, hd]⟩
    | none =>
      have hstep : redoScanStep parse colls txRecId now st obj
          = .ok ⟨false, st.queued ++
              [.update obj.collection obj._id
                [("$set", [("deleted", .vNum now), ("transaction_id", .vStr txRecId)])]]⟩ := by
        simp [redoScanStep, h1, hd, h]
      rw [hstep] at hs; cases hs
      exact Or.inr ⟨rfl, by simp [redoTraceOp, h1, hd]⟩
  · by_cases h2 : obj.action = "update"
    · cases hu : obj.update with
      | some u =>
        by_cases hcmd : u.command = ""
        · have hstep : redoScanStep parse colls txRecId now st obj = .ok st := by
            simp [redoScanStep, h1, h2, hu, hcmd]
          rw [hstep] at hs; cases hs
          exact Or.inr ⟨h, by simp [redoTraceOp, h1, h2, hu, hcmd]⟩
        · cases hup : _unpackageForUpdate parse u.data with
          | error e =>
            have hstep : redoScanStep parse colls txRecId now st obj = .error e := by
              simp [redoScanStep, h1, h2, hu, hcmd, hup]
            rw [hstep] at hs; exact absurd hs (by simp)
          | ok data =>
            have hstep : redoScanStep parse colls txRecId now st obj
                = .ok ⟨false, st.queued ++
                    [.update obj.collection obj._id [(u.command, data)]]⟩ := by
              simp [redoScanStep, h1, h2, hu, hcmd, hup, h]
            rw [hstep] at hs; cases hs
            exact Or.inr ⟨rfl, by simp [redoTraceOp, h1, h2, hu, hcmd, hup]⟩
      | none =>
        have hstep : redoScanStep parse colls txRecId now st obj = .ok st := by
          simp [redoScanStep, h1, h2, hu]
        rw [hstep] at hs; cases hs
        exact Or.inr ⟨h, by simp [redoTraceOp, h1, h2, hu]⟩
    · by_cases h3 : obj.action = "insert"
      · by_cases hins : ∃ x ∈ findDocs colls obj.collection,
            List.lookup "_id" x = some (Value.vStr obj._id)
        · have hstep : redoScanStep parse colls txRecId now st obj
              = .ok ⟨true, st.queued⟩ := by
            simp [redoScanStep, h1, h2, h3, h, hins]
          rw [hstep] at hs; cases hs
          exact Or.inl rfl
        · have hins2 : ∀ x ∈ findDocs colls obj.collection,
              ¬(List.lookup "_id" x = some (Value.vStr obj._id)) := by
            intro x hx hc
            exact hins ⟨x, hx, hc⟩
          have hstep : redoScanStep parse colls txRecId now st obj
              = .ok ⟨false, st.queued ++
                  [.insert obj.collection
                    (objAssign (objAssign (obj.newDoc.getD []) "transaction_id"
                      (.vStr txRecId)) "_id" (.vStr obj._id))]⟩ := by
            simp [redoScanStep, h1, h2, h3, h]
            exact hins2
          rw [hstep] at hs; cases hs
          refine Or.inr ⟨rfl, ?_⟩
          have htr : redoTraceOp parse colls txRecId now obj
              = some (.insert obj.collection
                  (objAssign (objAssign (obj.newDoc.getD []) "transaction_id"
                    (.vStr txRecId)) "_id" (.vStr obj._id))) := by
            simp [redoTraceOp, h1, h2, h3]
            exact hins2
          rw [htr]
          rfl
      · have hstep : redoScanStep parse colls txRecId now st obj = .ok st := by
          simp [redoScanStep, h1, h2, h3]
        rw [hstep] at hs; cases hs
        exact Or.inr ⟨h, by simp [redoTraceOp, h1, h2, h3]⟩

/-- The queue a non-expired redo scan builds is the per-item forward
operations, in scan order. -/
theorem redoScan_fold_spec (parse : Value → Except Unit Value) (colls : Collections)
    (txRecId : String) (now : Nat) :
    ∀ (items : List Item) (st st' : ScanState),
      st.expired = false →
      List.foldlM (redoScanStep parse colls txRecId now) st items = .ok st' →
      st'.expired = false →
      st'.queued = st.queued ++ items.filterMap (redoTraceOp parse colls txRecId now) := by
  intro items
  induction items with
  | nil =>
    intro st st' h hf h'
    cases hf
    simp
  | cons obj rest ih =>
    intro st st' h hf h'
    rw [List.foldlM_cons] at hf
    cases hstep : redoScanStep parse colls txRecId now st obj with
    | error e => rw [hstep] at hf; exact absurd hf (by simp [Bind.bind, Except.bind])
    | ok st₁ =>
      rw [hstep] at hf
      have hbind : List.foldlM (redoScanStep parse colls txRecId now) st₁ rest = .ok st' := by
        simpa [Bind.bind, Except.bind] using hf
      rcases redoScanStep_spec parse colls txRecId now obj st st₁ h hstep with hexp | ⟨hexp, hq⟩
      · rw [redoScan_fold_mono parse colls txRecId now rest st₁ st' hexp hbind] at h'
        exact absurd h' (by simp)
      · rw [ih st₁ st' hexp hbind h', hq, List.filterMap_cons]
        cases htr : redoTraceOp parse colls txRecId now obj with
        | none => simp [htr, Option.toList]
        | some op => simp [htr, Option.toList]

theorem head?_mem {α : Type} {l : List α} {a : α} (h : l.head? = some a) : a ∈ l := by
  cases l with
  | nil => cases h
  | cons x xs => cases h; exact List.mem_cons_self _ _

/-- A record selected by explicit id satisfies the undo eligibility
selector; in particular its `_id` is the requested one and its state is
`done`. -/
theorem selectUndoTx_props {uid : Option String} {t : String} {txs : List TxRecord}
    {r : TxRecord} (h : selectUndoTx uid (some t) txs = some r) :
    r._id = t ∧ r.state = "done" := by
  have hmem : r ∈ txs.filter (undoEligible uid (some t)) := by
    simp only [selectUndoTx] at h
    exact head?_mem h
  have he := (List.mem_filter.mp hmem).2
  simp only [undoEligible, Bool.and_eq_true, beq_iff_eq] at he
  exact ⟨he.1.1.1, he.2⟩

/-- A record selected by explicit id for redo satisfies the redo
eligibility selector. -/
theorem selectRedoTx_props {uid : Option String} {t : String} {txs : List TxRecord}
    {r : TxRecord} (h : selectRedoTx uid (some t) txs = some r) :
    r._id = t := by
  have hmem : r ∈ txs.filter (redoEligible uid (some t)) := by
    simp only [selectRedoTx] at h
    exact head?_mem h
  have he := (List.mem_filter.mp hmem).2
  simp only [redoEligible, Bool.and_eq_true, beq_iff_eq] at he
  exact he.1.1

/-- The shape of a successful (non-expired) undo through an explicit
transaction id: the scan succeeded without staleness, the trace is its
queue, and the final store is the queue execution followed by the
`undone`/`state` update of the selected record. -/
theorem undoMethod_ok_shape (parse : Value → Except Unit Value) (u t : String)
    (now : Nat) (db : DB) (res : MethodResult) (r : TxRecord) (l : List Item)
    (hcall : undoMethod parse (some u) (some t) now db = .ok res)
    (hsel : selectUndoTx (some u) (some t) db.txs = some r)
    (hitems : r.items = some l)
    (hexp : res.expired = false) :
    ∃ st : ScanState,
      List.foldlM (undoScanStep parse db.colls r._id) ⟨false, []⟩ l.reverse = .ok st ∧
      st.expired = false ∧
      res.trace = st.queued ∧
      res.db = ⟨txUpdate (execQueueGo r._id "undone" (fun i => st.queued.length - 1 - i)
          ⟨db.colls, db.txs, []⟩ st.queued 0).txs r._id
          (fun q => { q with undone := some (some now), state := "undone" }),
        (execQueueGo r._id "undone" (fun i => st.queued.length - 1 - i)
          ⟨db.colls, db.txs, []⟩ st.queued 0).colls⟩ := by
  simp only [undoMethod, hsel, hitems, Option.isNone_some, Bool.false_eq_true,
    if_false] at hcall
  cases hcf : _checkTransactionFields parse l with
  | error e => simp only [hcf] at hcall; exact Except.noConfusion hcall
  | ok b =>
    simp only [hcf] at hcall
    cases b with
    | false =>
      simp only [if_false, Bool.false_eq_true] at hcall
      cases hcall
      exact absurd hexp (by simp)
    | true =>
      simp only [if_true] at hcall
      cases hfold : List.foldlM (undoScanStep parse db.colls r._id) ⟨false, []⟩ l.reverse with
      | error e => simp only [hfold] at hcall; exact Except.noConfusion hcall
      | ok st =>
        simp only [hfold] at hcall
        by_cases hst : st.expired = true
        · rw [if_pos hst] at hcall
          cases hcall
          exact absurd hexp (by simp)
        · rw [if_neg hst] at hcall
          cases hcall
          have htr := execQueueGo_trace r._id "undone"
            (fun i => st.queued.length - 1 - i) st.queued ⟨db.colls, db.txs, []⟩ 0
          exact ⟨st, rfl, Bool.not_eq_true _ ▸ hst, by simpa using htr, rfl⟩

/-- The shape of a successful (non-expired) redo through an explicit
transaction id. -/
theorem redoMethod_ok_shape (parse : Value → Except Unit Value) (u t : String)
    (now : Nat) (db : DB) (res : MethodResult) (r : TxRecord) (l : List Item)
    (hcall : redoMethod parse (some u) (some t) now db = .ok res)
    (hsel : selectRedoTx (some u) (some t) db.txs = some r)
    (hitems : r.items = some l)
    (hexp : res.expired = false) :
    ∃ st : ScanState,
      List.foldlM (redoScanStep parse db.colls r._id now) ⟨false, []⟩ l = .ok st ∧
      st.expired = false ∧
      res.trace = st.queued ∧
      res.db = ⟨txUpdate (execQueueGo r._id "done" (fun i => i)
          ⟨db.colls, db.txs, []⟩ st.queued 0).txs r._id
          (fun q => { q with undone := none, state := "done" }),
        (execQueueGo r._id "done" (fun i => i)
          ⟨db.colls, db.txs, []⟩ st.queued 0).colls⟩ := by
  simp only [redoMethod, hsel, hitems, Option.isNone_some, Bool.false_eq_true,
    if_false] at hcall
  cases hcf : _checkTransactionFields parse l with
  | error e => simp only [hcf] at hcall; exact Except.noConfusion hcall
  | ok b =>
    simp only [hcf] at hcall
    cases b with
    | false =>
      simp only [if_false, Bool.false_eq_true] at hcall
      cases hcall
      exact absurd hexp (by simp)
    | true =>
      simp only [if_true] at hcall
      cases hfold : List.foldlM (redoScanStep parse db.colls r._id now) ⟨false, []⟩ l with
      | error e => simp only [hfold] at hcall; exact Except.noConfusion hcall
      | ok st =>
        simp only [hfold] at hcall
        by_cases hst : st.expired = true
        · rw [if_pos hst] at hcall
          cases hcall
          exact absurd hexp (by simp)
        · rw [if_neg hst] at hcall
          cases hcall
          have htr := execQueueGo_trace r._id "done"
            (fun i => i) st.queued ⟨db.colls, db.txs, []⟩ 0
          exact ⟨st, rfl, Bool.not_eq_true _ ▸ hst, by simpa using htr, rfl⟩

/-! ### Claim C3 -/

/-- Claim C3: for a persisted transaction with items, a successful undo
attempts the per-item inverse operations in *reverse* of the items' stored
order, and a successful redo attempts the forward operations in the
*original* stored order. -/
theorem c3_undo_reverse_redo_forward_order :
    (∀ (parse : Value → Except Unit Value) (u t : String) (now : Nat) (db : DB)
        (res : MethodResult) (r : TxRecord) (l : List Item),
        undoMethod parse (some u) (some t) now db = .ok res →
        selectUndoTx (some u) (some t) db.txs = some r →
        r.items = some l →
        res.expired = false →
        res.trace = l.reverse.filterMap (undoTraceOp parse db.colls r._id)) ∧
    (∀ (parse : Value → Except Unit Value) (u t : String) (now : Nat) (db : DB)
        (res : MethodResult) (r : TxRecord) (l : List Item),
        redoMethod parse (some u) (some t) now db = .ok res →
        selectRedoTx (some u) (some t) db.txs = some r →
        r.items = some l →
        res.expired = false →
        res.trace = l.filterMap (redoTraceOp parse db.colls r._id now)) := by
  constructor
  · intro parse u t now db res r l hcall hsel hitems hexp
    obtain ⟨st, hfold, hst, htrace, _⟩ :=
      undoMethod_ok_shape parse u t now db res r l hcall hsel hitems hexp
    rw [htrace]
    have hq := undoScan_fold_spec parse db.colls r._id l.reverse ⟨false, []⟩ st rfl hfold hst
    simpa using hq
  · intro parse u t now db res r l hcall hsel hitems hexp
    obtain ⟨st, hfold, hst, htrace, _⟩ :=
      redoMethod_ok_shape parse u t now db res r l hcall hsel hitems hexp
    rw [htrace]
    have hq := redoScan_fold_spec parse db.colls r._id now l ⟨false, []⟩ st rfl hfold hst
    simpa using hq

/-- Witness for `c3_undo_reverse_redo_forward_order` on the committed
insert-then-update transaction `T1`: the undo attempts the inverse update
before the guarded remove, and the subsequent redo reinserts before
reapplying the update. -/
theorem c3_order_witness :
    (undoMethod jsonParseModel (some "u") (some "T1") 9 exDBUndoable
       = .ok ⟨exUndoneDB, exUndoTrace, false⟩ ∧
     exUndoTrace = [exItemInsert, exItemUpdate].reverse.filterMap
       (undoTraceOp jsonParseModel exDBUndoable.colls exRecDone._id)) ∧
    (redoMethod jsonParseModel (some "u") (some "T1") 12 exUndoneDB
       = .ok ⟨exRedoneDB, exRedoTrace, false⟩ ∧
     exRedoTrace = [itemUndone exItemInsert, itemUndone exItemUpdate].filterMap
       (redoTraceOp jsonParseModel exUndoneDB.colls exRecDone._id 12)) := by
  have hu : undoMethod jsonParseModel (some "u") (some "T1") 9 exDBUndoable
      = .ok ⟨exUndoneDB, exUndoTrace, false⟩ := by decide
  have hr : redoMethod jsonParseModel (some "u") (some "T1") 12 exUndoneDB
      = .ok ⟨exRedoneDB, exRedoTrace, false⟩ := by decide
  refine ⟨⟨hu, ?_⟩, ⟨hr, ?_⟩⟩
  · exact c3_undo_reverse_redo_forward_order.1 jsonParseModel "u" "T1" 9 exDBUndoable
      ⟨exUndoneDB, exUndoTrace, false⟩ exRecDone [exItemInsert, exItemUpdate]
      hu (by decide) rfl rfl
  · exact c3_undo_reverse_redo_forward_order.2 jsonParseModel "u" "T1" 12 exUndoneDB
      ⟨exRedoneDB, exRedoTrace, false⟩
      { _id := "T1", user_id := some "u", description := "d", context := [],
        items := some [itemUndone exItemInsert, itemUndone exItemUpdate],
        state := "undone", lastModified := 5, undone := some (some 9) }
      [itemUndone exItemInsert, itemUndone exItemUpdate]
      hr (by decide) rfl rfl

/-! ### Claim C2 -/

/-- Claim C2: whenever an undo or redo of a persisted transaction reports
staleness (`expired` true), no application-collection operation was
attempted and the only store change is `expired := true` on that
transaction's record. -/
theorem c2_staleness_only_sets_expired :
    (∀ (parse : Value → Except Unit Value) (u t : String) (now : Nat) (db : DB)
        (res : MethodResult) (r : TxRecord),
        undoMethod parse (some u) (some t) now db = .ok res →
        selectUndoTx (some u) (some t) db.txs = some r →
        res.expired = true →
        res.trace = [] ∧ res.db.colls = db.colls ∧
        res.db.txs = txUpdate db.txs r._id (fun q => { q with expired := some true })) ∧
    (∀ (parse : Value → Except Unit Value) (u t : String) (now : Nat) (db : DB)
        (res : MethodResult) (r : TxRecord),
        redoMethod parse (some u) (some t) now db = .ok res →
        selectRedoTx (some u) (some t) db.txs = some r →
        res.expired = true →
        res.trace = [] ∧ res.db.colls = db.colls ∧
        res.db.txs = txUpdate db.txs r._id (fun q => { q with expired := some true })) := by
  constructor
  · intro parse u t now db res r hcall hsel hexp
    simp only [undoMethod, hsel, Option.isNone_some, Bool.false_eq_true, if_false] at hcall
    cases hitems : r.items with
    | none =>
      simp only [hitems] at hcall
      cases hcall
      exact absurd hexp (by simp)
    | some l =>
      simp only [hitems] at hcall
      cases hcf : _checkTransactionFields parse l with
      | error e => simp only [hcf] at hcall; exact Except.noConfusion hcall
      | ok b =>
        simp only [hcf] at hcall
        cases b with
        | false =>
          simp only [if_false, Bool.false_eq_true] at hcall
          cases hcall
          exact ⟨rfl, rfl, rfl⟩
        | true =>
          simp only [if_true] at hcall
          cases hfold : List.foldlM (undoScanStep parse db.colls r._id) ⟨false, []⟩
              l.reverse with
          | error e => simp only [hfold] at hcall; exact Except.noConfusion hcall
          | ok st =>
            simp only [hfold] at hcall
            by_cases hst : st.expired = true
            · rw [if_pos hst] at hcall
              cases hcall
              exact ⟨rfl, rfl, rfl⟩
            · rw [if_neg hst] at hcall
              cases hcall
              exact absurd hexp (by simp)
  · intro parse u t now db res r hcall hsel hexp
    simp only [redoMethod, hsel, Option.isNone_some, Bool.false_eq_true, if_false] at hcall
    cases hitems : r.items with
    | none =>
      simp only [hitems] at hcall
      cases hcall
      exact absurd hexp (by simp)
    | some l =>
      simp only [hitems] at hcall
      cases hcf : _checkTransactionFields parse l with
      | error e => simp only [hcf] at hcall; exact Except.noConfusion hcall
      | ok b =>
        simp only [hcf] at hcall
        cases b with
        | false =>
          simp only [if_false, Bool.false_eq_true] at hcall
          cases hcall
          exact ⟨rfl, rfl, rfl⟩
        | true =>
          simp only [if_true] at hcall
          cases hfold : List.foldlM (redoScanStep parse db.colls r._id now) ⟨false, []⟩ l with
          | error e => simp only [hfold] at hcall; exact Except.noConfusion hcall
          | ok st =>
            simp only [hfold] at hcall
            by_cases hst : st.expired = true
            · rw [if_pos hst] at hcall
              cases hcall
              exact ⟨rfl, rfl, rfl⟩
            · rw [if_neg hst] at hcall
              cases hcall
              exact absurd hexp (by simp)

/-- Witness for `c2_staleness_only_sets_expired`: undoing `T1` after
`posts/a1` was tagged by a different transaction `T2` writes nothing to
`posts` and only sets `expired` on `T1`. -/
theorem c2_staleness_witness :
    undoMethod jsonParseModel (some "u") (some "T1") 9 exDBStale
      = .ok ⟨⟨txUpdate exDBStale.txs "T1" (fun q => { q with expired := some true }),
              exDBStale.colls⟩, [], true⟩ ∧
    (([] : List AppOp) = [] ∧
     (⟨⟨txUpdate exDBStale.txs "T1" (fun q => { q with expired := some true }),
        exDBStale.colls⟩, [], true⟩ : MethodResult).db.colls = exDBStale.colls ∧
     (⟨⟨txUpdate exDBStale.txs "T1" (fun q => { q with expired := some true }),
        exDBStale.colls⟩, [], true⟩ : MethodResult).db.txs
       = txUpdate exDBStale.txs exRecDone._id (fun q => { q with expired := some true })) := by
  have hcall : undoMethod jsonParseModel (some "u") (some "T1") 9 exDBStale
      = .ok ⟨⟨txUpdate exDBStale.txs "T1" (fun q => { q with expired := some true }),
              exDBStale.colls⟩, [], true⟩ := by decide
  refine ⟨hcall, ?_⟩
  have h := c2_staleness_only_sets_expired.1 jsonParseModel "u" "T1" 9 exDBStale
    ⟨⟨txUpdate exDBStale.txs "T1" (fun q => { q with expired := some true }),
      exDBStale.colls⟩, [], true⟩ exRecDone hcall (by decide) rfl
  exact ⟨rfl, h.2.1, h.2.2⟩

/-! ### Claim C9 -/

/-- Claim C9: a successful undo leaves the transaction record in state
`undone`, so the eligibility selector (`state: "done"`, not undone, not
expired) matches nothing on an immediate second undo of the same id: the
call finds no transaction and changes nothing. -/
theorem c9_second_undo_is_noop
    (parse : Value → Except Unit Value) (u t : String) (now now2 : Nat) (db : DB)
    (res : MethodResult) (r : TxRecord) (l : List Item)
    (hcall : undoMethod parse (some u) (some t) now db = .ok res)
    (hsel : selectUndoTx (some u) (some t) db.txs = some r)
    (hitems : r.items = some l)
    (hexp : res.expired = false) :
    undoMethod parse (some u) (some t) now2 res.db = .ok ⟨res.db, [], false⟩ := by
  obtain ⟨st, _, _, _, hdb⟩ :=
    undoMethod_ok_shape parse u t now db res r l hcall hsel hitems hexp
  have hid := (selectUndoTx_props hsel).1
  subst hid
  have hsel2 : selectUndoTx (some u) (some r._id) res.db.txs = none := by
    rw [hdb]
    simp only [selectUndoTx]
    have hfil : (txUpdate (execQueueGo r._id "undone" (fun i => st.queued.length - 1 - i)
        ⟨db.colls, db.txs, []⟩ st.queued 0).txs r._id
        (fun q => { q with undone := some (some now), state := "undone" })).filter
        (undoEligible (some u) (some r._id)) = [] := by
      rw [List.filter_eq_nil_iff]
      intro q hq
      simp only [txUpdate] at hq
      rcases List.mem_map.mp hq with ⟨q0, hq0, hqeq⟩
      by_cases hqid : q0._id = r._id
      · rw [if_pos hqid] at hqeq
        subst hqeq
        simp [undoEligible, beq_iff_eq]
      · rw [if_neg hqid] at hqeq
        subst hqeq
        simp [undoEligible, beq_iff_eq, hqid]
    rw [hfil]
    rfl
  simp [undoMethod, hsel2]

/-- Witness for `c9_second_undo_is_noop`: after undoing `T1`, a second
`undo("T1")` finds no eligible transaction and leaves the whole store
unchanged. -/
theorem c9_second_undo_witness :
    undoMethod jsonParseModel (some "u") (some "T1") 9 exDBUndoable
      = .ok ⟨exUndoneDB, exUndoTrace, false⟩ ∧
    undoMethod jsonParseModel (some "u") (some "T1") 11 exUndoneDB
      = .ok ⟨exUndoneDB, [], false⟩ := by
  have hcall : undoMethod jsonParseModel (some "u") (some "T1") 9 exDBUndoable
      = .ok ⟨exUndoneDB, exUndoTrace, false⟩ := by decide
  refine ⟨hcall, ?_⟩
  exact c9_second_undo_is_noop jsonParseModel "u" "T1" 9 11 exDBUndoable
    ⟨exUndoneDB, exUndoTrace, false⟩ exRecDone [exItemInsert, exItemUpdate]
    hcall (by decide) rfl rfl

/-! ### Claim C1 -/

/-- The rollback loop's attempted operations are exactly the per-item
reversals, in the items' original stored order. -/
theorem rollbackGo_trace (parse : Value → Except Unit Value) (tid : Option String) :
    ∀ (items : List Item) (db : DB) (err : Bool) (trace : List AppOp) (idx : Nat)
      (out : DB × Bool × List AppOp),
      rollbackGo parse tid db err trace idx items = .ok out →
      out.2.2 = trace ++ items.filterMap (rollbackTraceOp parse tid) := by
  intro items
  induction items with
  | nil => intro db err trace idx out h; cases h; simp
  | cons obj rest ih =>
    intro db err trace idx out h
    simp only [rollbackGo] at h
    cases hat : rollbackAttempt parse tid obj with
    | error e => simp only [hat] at h; exact Except.noConfusion h
    | ok opOpt =>
      simp only [hat] at h
      have htl : rollbackTraceOp parse tid obj = opOpt := by
        simp [rollbackTraceOp, hat]
      cases opOpt with
      | none =>
        rw [ih _ _ _ _ _ h, List.filterMap_cons, htl]
      | some op =>
        cases hap : applyAppOp db.colls op with
        | ok colls' =>
          simp only [hap] at h
          rw [ih _ _ _ _ _ h, List.filterMap_cons, htl]
          simp
        | error e =>
          simp only [hap] at h
          rw [ih _ _ _ _ _ h, List.filterMap_cons, htl]
          simp

/-- Claim C1, as stated, is false: the rollback pass iterates `this._items`
with `_.each` in *forward* order, so the two instant updates' stored
inverses are applied first-queued-first, not last-queued-first. -/
theorem c1_rollback_order_counterexample :
    Except.map RollbackOutcome.trace (rollback jsonParseModel false sRB exDBPosts)
      = .ok [exInverseOp 0, exInverseOp 1] ∧
    [exInverseOp 0, exInverseOp 1]
      ≠ [exInstantUpdateItem 1, exInstantUpdateItem 2].reverse.filterMap
          (rollbackTraceOp jsonParseModel (some "T1")) :=
  ⟨by decide, by decide⟩

/-- Claim C1 (amended): the rollback pass applies each applied action's
stored inverse in the *original* order of application (the first applied
action is reversed first), with best-effort semantics. -/
theorem c1_rollback_original_order_amended
    (parse : Value → Except Unit Value) (rb : Bool) (s : BuilderState) (db : DB)
    (r : RollbackOutcome)
    (h : rollback parse rb s db = .ok r) :
    r.trace = s.items.filterMap (rollbackTraceOp parse s.transaction_id) := by
  simp only [rollback] at h
  cases hgo : rollbackGo parse s.transaction_id db false [] 0 s.items with
  | error e =>
    simp only [hgo, Bind.bind, Except.bind] at h
    exact Except.noConfusion h
  | ok tri =>
    obtain ⟨db1, err, tr⟩ := tri
    simp only [hgo, Bind.bind, Except.bind] at h
    cases h
    have hgt := rollbackGo_trace parse s.transaction_id s.items db false [] 0 (db1, err, tr) hgo
    simpa using hgt

/-- Witness for `c1_rollback_original_order_amended`: rolling back the two
instant updates applies inverse 0 then inverse 1, the items' stored
order. -/
theorem c1_rollback_order_witness :
    rollback jsonParseModel false sRB exDBPosts
      = .ok ⟨cleanResetBuilder sRB,
             ⟨[], [("posts", [[("_id", .vStr "p1"), ("a", .vNum 1), ("x", .vNum 1)]])]⟩,
             [exInverseOp 0, exInverseOp 1], false⟩ ∧
    [exInverseOp 0, exInverseOp 1]
      = sRB.items.filterMap (rollbackTraceOp jsonParseModel sRB.transaction_id) := by
  have hcall : rollback jsonParseModel false sRB exDBPosts
      = .ok ⟨cleanResetBuilder sRB,
             ⟨[], [("posts", [[("_id", .vStr "p1"), ("a", .vNum 1), ("x", .vNum 1)]])]⟩,
             [exInverseOp 0, exInverseOp 1], false⟩ := by decide
  refine ⟨hcall, ?_⟩
  have h := c1_rollback_original_order_amended jsonParseModel false sRB exDBPosts
    ⟨cleanResetBuilder sRB,
     ⟨[], [("posts", [[("_id", .vStr "p1"), ("a", .vNum 1), ("x", .vNum 1)]])]⟩,
     [exInverseOp 0, exInverseOp 1], false⟩ hcall
  simpa using h

end MeteorTx
